import Mathlib

/-! VoxelPlugin: `FVoxelSharedMutex` and `ValueOctree`

A shallow embedding of `Source/Voxel/Public/VoxelData/VoxelSharedMutex.h`
(the read / read-write lock with deadline polling and its diagnostics
bookkeeping) and of the octant geometry of
`Source/Procedural/Private/ValueOctree.h`, followed by the properties
established for them.

Conventions of the embedding:

* calls on one `FVoxelSharedMutex` are atomic and run one after the other;
  the calling thread is an explicit argument `Id`
  (`FPlatformTLS::GetCurrentThreadId()`);
* `double` values are exact rationals;
* a blocking call that cannot return in the current state yields `none`.
-/

namespace VoxelPlugin

/-! ## The lock state -/

/-- Lock kinds: `enum EVoxelLockType { Read, ReadWrite }`. -/
inductive EVoxelLockType where
  | Read
  | ReadWrite
  deriving DecidableEq, Repr, Fintype

/-- Modelled from the spec: `std::shared_timed_mutex` of the C++ standard
library, which the header only includes. It is the state machine of the
specification, `Unlocked`, `SharedHeld(n)`, `ExclusiveHeld`, kept as the number
of shared holders and the exclusive-holder flag. -/
structure SharedTimedMutex where
  Shared : Nat
  Exclusive : Bool
  deriving DecidableEq, Repr

namespace SharedTimedMutex

/-- Modelled from the spec: `try_lock_shared()`; shared access is granted
unless an exclusive holder exists. The standard also lets the call fail for no
reason; such a failure changes nothing, like the failure modelled here. -/
def try_lock_shared (m : SharedTimedMutex) : Bool × SharedTimedMutex :=
  if m.Exclusive then (false, m) else (true, { m with Shared := m.Shared + 1 })

/-- Modelled from the spec: `try_lock()`; exclusive access is granted only
when nobody holds the mutex. The standard also lets the call fail for no
reason; such a failure changes nothing, like the failure modelled here. -/
def try_lock (m : SharedTimedMutex) : Bool × SharedTimedMutex :=
  if m.Exclusive || decide (0 < m.Shared) then (false, m)
  else (true, { m with Exclusive := true })

/-- Modelled from the spec: `lock_shared()`; blocks while an exclusive holder
exists, so it returns only from a state that grants shared access. -/
def lock_shared (m : SharedTimedMutex) : Option SharedTimedMutex :=
  if m.Exclusive then none else some { m with Shared := m.Shared + 1 }

/-- Modelled from the spec: `lock()`; blocks while anybody holds the mutex. -/
def lock (m : SharedTimedMutex) : Option SharedTimedMutex :=
  if m.Exclusive || decide (0 < m.Shared) then none
  else some { m with Exclusive := true }

/-- Modelled from the spec: `unlock_shared()`; one shared holder leaves. The
standard gives no meaning to the call when there is no shared holder; the count
then stays at zero. -/
def unlock_shared (m : SharedTimedMutex) : SharedTimedMutex :=
  { m with Shared := m.Shared - 1 }

/-- Modelled from the spec: `unlock()`; the exclusive holder leaves. The
standard gives no meaning to the call when there is no exclusive holder; the
flag then stays cleared. -/
def unlock (m : SharedTimedMutex) : SharedTimedMutex :=
  { m with Exclusive := false }

end SharedTimedMutex

/-- Class `FVoxelSharedMutex` in the `DO_THREADSAFE_CHECKS` build: the mutex,
the two `FThreadSafeCounter`s and the `TSet<uint32>` of thread ids (thread ids
are only compared with each other, so they are natural numbers here).
`FThreadSafeCounter` is a 32-bit counter of simultaneous holders; it is kept as
an unbounded integer, which it agrees with for fewer than `2 ^ 31` calls
(`run_counters_bounded`). `ThreadIdsSection` only serialises access to `ThreadIds`
and carries no state of its own. `EnsureFailures` is a ghost field: the number
of `ensure(...)` conditions that have evaluated to false on this object
(`ensure` reports the failure and lets execution continue). -/
structure FVoxelSharedMutex where
  Mutex : SharedTimedMutex
  ReadLocks : Int
  WriteLocks : Int
  ThreadIds : Finset Nat
  EnsureFailures : Nat
  deriving DecidableEq

namespace FVoxelSharedMutex

/-- A freshly constructed `FVoxelSharedMutex`: nobody holds the mutex, both
counters are zero and `ThreadIds` is empty. -/
def fresh : FVoxelSharedMutex :=
  { Mutex := { Shared := 0, Exclusive := false }
    ReadLocks := 0
    WriteLocks := 0
    ThreadIds := ∅
    EnsureFailures := 0 }

/-- Modelled from the spec: the engine's `ensure(cond)`, a non-fatal
assertion; a false condition is recorded and execution continues. -/
def ensure (cond : Bool) (s : FVoxelSharedMutex) : FVoxelSharedMutex :=
  if cond then s else { s with EnsureFailures := s.EnsureFailures + 1 }

/-- Method `AddThreadId()`: `ensure(!ThreadIds.Contains(Id)); ThreadIds.Add(Id);`. -/
def AddThreadId (Id : Nat) (s : FVoxelSharedMutex) : FVoxelSharedMutex :=
  let s1 := ensure (!decide (Id ∈ s.ThreadIds)) s
  { s1 with ThreadIds := insert Id s1.ThreadIds }

/-- Method `RemoveThreadId()`: `ensure(ThreadIds.Contains(Id)); ThreadIds.Remove(Id);`. -/
def RemoveThreadId (Id : Nat) (s : FVoxelSharedMutex) : FVoxelSharedMutex :=
  let s1 := ensure (decide (Id ∈ s.ThreadIds)) s
  { s1 with ThreadIds := s1.ThreadIds.erase Id }

/-- Method `IsLockedForRead()`. -/
def IsLockedForRead (s : FVoxelSharedMutex) : Bool :=
  if s.ReadLocks ≠ 0 then true else decide (s.WriteLocks ≠ 0)

/-- Method `IsLockedForWrite()`. -/
def IsLockedForWrite (s : FVoxelSharedMutex) : Bool :=
  if s.WriteLocks ≠ 0 then true else false

/-- Method `IsLocked<LockType>()`. -/
def IsLocked (K : EVoxelLockType) (s : FVoxelSharedMutex) : Bool :=
  if K = .Read then IsLockedForRead s else IsLockedForWrite s

/-- Method `Lock<LockType>()` called by thread `Id`. The result is `none` when the
underlying blocking call cannot return in this state. -/
def Lock (K : EVoxelLockType) (Id : Nat) (s : FVoxelSharedMutex) :
    Option FVoxelSharedMutex :=
  match K with
  | .Read =>
    match s.Mutex.lock_shared with
    | none => none
    | some m => some (AddThreadId Id { s with Mutex := m, ReadLocks := s.ReadLocks + 1 })
  | .ReadWrite =>
    match s.Mutex.lock with
    | none => none
    | some m => some (AddThreadId Id { s with Mutex := m, WriteLocks := s.WriteLocks + 1 })

/-- Method `Unlock<LockType>()` called by thread `Id`. -/
def Unlock (K : EVoxelLockType) (Id : Nat) (s : FVoxelSharedMutex) :
    FVoxelSharedMutex :=
  match K with
  | .Read =>
    RemoveThreadId Id { s with Mutex := s.Mutex.unlock_shared, ReadLocks := s.ReadLocks - 1 }
  | .ReadWrite =>
    RemoveThreadId Id { s with Mutex := s.Mutex.unlock, WriteLocks := s.WriteLocks - 1 }

/-- Method `TryLockImpl<LockType>()` called by thread `Id`: the returned flag and the
state after the call. -/
def TryLockImpl (K : EVoxelLockType) (Id : Nat) (s : FVoxelSharedMutex) :
    Bool × FVoxelSharedMutex :=
  match K with
  | .Read =>
    match s.Mutex.try_lock_shared with
    | (true, m) => (true, AddThreadId Id { s with Mutex := m, ReadLocks := s.ReadLocks + 1 })
    | (false, m) => (false, { s with Mutex := m })
  | .ReadWrite =>
    match s.Mutex.try_lock with
    | (true, m) => (true, AddThreadId Id { s with Mutex := m, WriteLocks := s.WriteLocks + 1 })
    | (false, m) => (false, { s with Mutex := m })

end FVoxelSharedMutex

open FVoxelSharedMutex

/-! ## Sequences of calls -/

/-- One call on the lock: the operation, its lock kind and the calling thread. -/
inductive Call where
  | Lock (K : EVoxelLockType) (Id : Nat)
  | Unlock (K : EVoxelLockType) (Id : Nat)
  | TryLockImpl (K : EVoxelLockType) (Id : Nat)
  deriving DecidableEq

/-- The state after one call; `none` when the call is a `Lock` that cannot
return in this state. -/
def step (c : Call) (s : FVoxelSharedMutex) : Option FVoxelSharedMutex :=
  match c with
  | .Lock K Id => Lock K Id s
  | .Unlock K Id => some (Unlock K Id s)
  | .TryLockImpl K Id => some (TryLockImpl K Id s).2

/-- The state after a sequence of calls, each run to completion before the
next begins. -/
def run : List Call → FVoxelSharedMutex → Option FVoxelSharedMutex
  | [], s => some s
  | c :: cs, s =>
    match step c s with
    | none => none
    | some s1 => run cs s1

/-- Whether the mutex is currently held in the way kind `K` acquires it:
`SharedHeld` for `Read`, `ExclusiveHeld` for `ReadWrite`. -/
def HeldKind (K : EVoxelLockType) (m : SharedTimedMutex) : Bool :=
  match K with
  | .Read => decide (0 < m.Shared)
  | .ReadWrite => m.Exclusive

/-- Whether every `Unlock` of the sequence, at the moment it is called,
releases a lock of its kind that is currently held. -/
def UnlocksHeld : List Call → FVoxelSharedMutex → Bool
  | [], _ => true
  | c :: cs, s =>
    (match c with
      | .Unlock K _ => HeldKind K s.Mutex
      | _ => true) &&
    (match step c s with
      | none => true
      | some s1 => UnlocksHeld cs s1)

/-- What every call keeps, as long as each `Unlock` releases a held lock of
its kind: an exclusive holder excludes shared holders, and the two counters
count the shared holders and the exclusive holder. -/
def Consistent (s : FVoxelSharedMutex) : Prop :=
  (s.Mutex.Exclusive = true → s.Mutex.Shared = 0) ∧
  s.ReadLocks = (s.Mutex.Shared : Int) ∧
  s.WriteLocks = (if s.Mutex.Exclusive then 1 else 0)

/-- Ghost bookkeeping of who holds what: the list has one entry `(Id, K)` for
every lock of kind `K` that thread `Id` has acquired and not released. An
acquiring call adds its entry, `Unlock<K>` by `Id` removes one entry `(Id, K)`
when there is one. -/
def heldStep (c : Call) (s : FVoxelSharedMutex) (h : List (Nat × EVoxelLockType)) :
    List (Nat × EVoxelLockType) :=
  match c with
  | .Lock K Id => (Id, K) :: h
  | .Unlock K Id => h.erase (Id, K)
  | .TryLockImpl K Id => if (TryLockImpl K Id s).1 then (Id, K) :: h else h

/-- The state and the held locks after a sequence of calls. -/
def runHeld : List Call → FVoxelSharedMutex → List (Nat × EVoxelLockType) →
    Option (FVoxelSharedMutex × List (Nat × EVoxelLockType))
  | [], s, h => some (s, h)
  | c :: cs, s, h =>
    match step c s with
    | none => none
    | some s1 => runHeld cs s1 (heldStep c s h)

/-! ## Deadline polling: `TryLockUntil` -/

/-- What a call of `TryLockUntil` does, in the order in which it does it. -/
inductive Event where
  /-- The clock `FPlatformTime::Seconds()` was read and returned `t`. -/
  | Seconds (t : ℚ)
  /-- The attempt `TryLockImpl<LockType>()` was made and returned `ok`. -/
  | TryLockImpl (ok : Bool)
  /-- The call `FPlatformProcess::Sleep(d)` was made. -/
  | Sleep (d : ℚ)
  /-- The blocking `Lock<LockType>()` was called and returned. -/
  | Lock
  deriving DecidableEq

/-- The surroundings of one call of `TryLockUntil`: `Seconds n` is the value of
the `n`-th reading of `FPlatformTime::Seconds()` (the reading at entry is
number 0), and `Others n` is what the other threads have done to the lock
between the caller's previous access to it and its `n`-th access (the try-lock
attempt of iteration `n`, or the blocking `Lock`). -/
structure Env where
  Seconds : Nat → ℚ
  Others : Nat → FVoxelSharedMutex → FVoxelSharedMutex

/-- The lock as the other threads alone leave it in their turns
`first, ..., first + n - 1`. -/
def othersOnly (env : Env) : (first n : Nat) → FVoxelSharedMutex → FVoxelSharedMutex
  | _, 0, s => s
  | first, n + 1, s => othersOnly env (first + 1) n (env.Others first s)

/-- Local `const double TimeBetweenRetry = FMath::Min(0.001, TimeLeft / 32);`. -/
def TimeBetweenRetry (TimeLeft : ℚ) : ℚ :=
  min (1 / 1000) (TimeLeft / 32)

/-- Local `const int32 NumberOfRetry =
FMath::Max(1, FMath::FloorToInt(TimeLeft / TimeBetweenRetry));`. The value is
used only when `TimeLeft <= 3600`, where the quotient is at most 3 600 000 and
fits 32 bits. For `TimeLeft = 0` the source divides zero by zero; the quotient
is 0 here and the count 1, which `FMath::Max(1, ...)` also yields on targets
that convert a NaN to the most negative integer. -/
def NumberOfRetry (TimeLeft : ℚ) : Int :=
  max 1 ⌊TimeLeft / TimeBetweenRetry TimeLeft⌋

/-- Outcome of `TryLockUntil`: the returned flag, the lock afterwards and the
events of the call. -/
structure TryLockUntilResult where
  ret : Bool
  state : FVoxelSharedMutex
  trace : List Event

/-- The `for (int32 Retry = 0; Retry < NumberOfRetry; Retry++)` loop of
`TryLockUntil`, with `left = NumberOfRetry - Retry` iterations still allowed
and `clk` clock readings taken so far. -/
def retryLoop (K : EVoxelLockType) (Id : Nat) (TimeToTimeout Interval : ℚ) (env : Env) :
    (left Retry clk : Nat) → FVoxelSharedMutex → TryLockUntilResult
  | 0, _, _, s => { ret := false, state := s, trace := [] }
  | left + 1, Retry, clk, s =>
    let t1 := env.Seconds clk
    if TimeToTimeout < t1 then
      { ret := false, state := s, trace := [.Seconds t1] }
    else
      let r := TryLockImpl K Id (env.Others Retry s)
      if r.1 then
        { ret := true, state := r.2, trace := [.Seconds t1, .TryLockImpl true] }
      else
        let t2 := env.Seconds (clk + 1)
        if TimeToTimeout < t2 then
          { ret := false, state := r.2,
            trace := [.Seconds t1, .TryLockImpl false, .Seconds t2] }
        else
          let rest := retryLoop K Id TimeToTimeout Interval env left (Retry + 1) (clk + 2) r.2
          { ret := rest.ret, state := rest.state,
            trace := .Seconds t1 :: .TryLockImpl false :: .Seconds t2 ::
              .Sleep Interval :: rest.trace }

/-- Method `TryLockUntil<LockType>(TimeToTimeout)` called by thread `Id`. The
result is `none` when the blocking `Lock` of the long-deadline path cannot
return. The source computes `TimeBetweenRetry` and `NumberOfRetry` before the
test of `TimeLeft > 3600`; only the loop uses them. -/
def TryLockUntil (K : EVoxelLockType) (Id : Nat) (TimeToTimeout : ℚ) (env : Env)
    (s : FVoxelSharedMutex) : Option TryLockUntilResult :=
  let t0 := env.Seconds 0
  let TimeLeft := TimeToTimeout - t0
  if TimeLeft > 3600 then
    match Lock K Id (env.Others 0 s) with
    | none => none
    | some s1 => some { ret := true, state := s1, trace := [.Seconds t0, .Lock] }
  else
    let r := retryLoop K Id TimeToTimeout (TimeBetweenRetry TimeLeft) env
      (NumberOfRetry TimeLeft).toNat 0 1 s
    some { ret := r.ret, state := r.state, trace := .Seconds t0 :: r.trace }

/-- Number of try-lock attempts among the events. -/
def attempts : List Event → Nat
  | [] => 0
  | .TryLockImpl _ :: es => attempts es + 1
  | _ :: es => attempts es

/-- The clock model in which time advances only during `Sleep`, and by exactly
the requested amount: every reading in the events shows the entry time `now`
plus the sleeps made before it. -/
def ExactClock (now : ℚ) : List Event → Prop
  | [] => True
  | .Seconds t :: es => t = now ∧ ExactClock now es
  | .Sleep d :: es => ExactClock (now + d) es
  | _ :: es => ExactClock now es

/-- The time at the end of the events in that clock model. -/
def clockAfter (now : ℚ) : List Event → ℚ
  | [] => now
  | .Sleep d :: es => clockAfter (now + d) es
  | _ :: es => clockAfter now es

/-- Surroundings with the given clock readings and no other thread. -/
def quietEnv (clock : Nat → ℚ) : Env :=
  { Seconds := clock, Others := (fun _ s => s) }

/-- The clock readings `TryLockUntil` gets when it is entered at time `t0` and
time advances only in its sleeps of length `d`: reading 0 is taken at entry,
readings `2 i + 1` and `2 i + 2` in iteration `i`, after `i` sleeps. -/
def sleepClock (t0 d : ℚ) (n : Nat) : ℚ :=
  t0 + (((n - 1) / 2 : Nat) : ℚ) * d

/-- The lock while thread 1 holds it for writing. -/
def writeLocked : FVoxelSharedMutex :=
  { Mutex := { Shared := 0, Exclusive := true }
    ReadLocks := 0
    WriteLocks := 1
    ThreadIds := {1}
    EnsureFailures := 0 }

/-! ## The octree -/

/-- Modelled from the spec: the engine's `FIntVector`, an integer 3D
coordinate, which the specification treats as a plain value type. -/
structure FIntVector where
  X : Int
  Y : Int
  Z : Int
  deriving DecidableEq

/-- Class `ValueOctree` as far as octant selection is concerned: `Position`
(the centre), `Depth` and, once the node is subdivided, `Childs[8]`. `Values`,
`Colors` and the dirty flag play no part in octant selection and are left
out. -/
inductive ValueOctree where
  | leaf (Position : FIntVector) (Depth : Nat)
  | inner (Position : FIntVector) (Depth : Nat) (Childs : Fin 8 → ValueOctree)

namespace ValueOctree

/-- The field `Position`. -/
def Position : ValueOctree → FIntVector
  | leaf P _ => P
  | inner P _ _ => P

/-- The field `Depth`. -/
def Depth : ValueOctree → Nat
  | leaf _ D => D
  | inner _ D _ => D

/-- Modelled from the spec: `IsLeaf()`, whose body is in `ValueOctree.cpp`,
absent from the sources; true until the node is subdivided. -/
def IsLeaf : ValueOctree → Bool
  | leaf _ _ => true
  | inner _ _ _ => false

/-- Modelled from the spec: `GetWidth()`, whose body is in `ValueOctree.cpp`,
absent from the sources; `Width = 2^(Depth+1)`. -/
def GetWidth (n : ValueOctree) : Int :=
  2 ^ (n.Depth + 1)

/-- Modelled from the spec: `IsInChunk(globalPosition)`, whose body is in
`ValueOctree.cpp`, absent from the sources; a coordinate is in the chunk iff
on each axis its distance from `Position` is within `[-Width/2, Width/2)`. -/
def IsInChunk (n : ValueOctree) (p : FIntVector) : Bool :=
  decide (-(n.GetWidth / 2) ≤ p.X - n.Position.X ∧ p.X - n.Position.X < n.GetWidth / 2) &&
  decide (-(n.GetWidth / 2) ≤ p.Y - n.Position.Y ∧ p.Y - n.Position.Y < n.GetWidth / 2) &&
  decide (-(n.GetWidth / 2) ≤ p.Z - n.Position.Z ∧ p.Z - n.Position.Z < n.GetWidth / 2)

/-- Centre of the child with index `i`, following the layout documented above
`Childs[8]` in the header (x is the lowest bit of the index, then y, then
bottom/top) and the offset of `Width/4` per axis given by the specification:
towards larger coordinates when the bit of the axis is set, towards smaller
ones when it is clear. -/
def childPosition (n : ValueOctree) (i : Fin 8) : FIntVector :=
  let d := n.GetWidth / 4
  { X := n.Position.X + (if i.val % 2 = 1 then d else -d)
    Y := n.Position.Y + (if i.val / 2 % 2 = 1 then d else -d)
    Z := n.Position.Z + (if i.val / 4 % 2 = 1 then d else -d) }

/-- Modelled from the spec: `CreateChilds()`, whose body is in
`ValueOctree.cpp`, absent from the sources; called only from a leaf, it
allocates 8 child nodes at `Depth-1`, each centred at its offset of `Width/4`
per axis, after which the node is no longer a leaf. The result is `none` for a
call outside that contract (the node is not a leaf, or has no depth left). -/
def CreateChilds : ValueOctree → Option ValueOctree
  | leaf P D =>
    if D = 0 then none
    else some (inner P D (fun i => leaf (childPosition (leaf P D) i) (D - 1)))
  | inner _ _ _ => none

/-- Octant index of a coordinate, as the specification gives it: per axis the
bit is clear when the coordinate is below the centre and set when it is at or
above it; x is the lowest bit, then y, then z. -/
def octant (n : ValueOctree) (p : FIntVector) : Fin 8 :=
  ⟨(if p.X ≥ n.Position.X then 1 else 0) + (if p.Y ≥ n.Position.Y then 2 else 0) +
    (if p.Z ≥ n.Position.Z then 4 else 0), by split <;> split <;> split <;> decide⟩

/-- Modelled from the spec: `GetLeaf(globalPosition)`, whose body is in
`ValueOctree.cpp`, absent from the sources; for a coordinate in the chunk it
returns the leaf that owns it, descending through the children by recomputing
the octant at each level; a coordinate outside the chunk is a contract
violation, here `none`. -/
def GetLeaf : ValueOctree → FIntVector → Option ValueOctree
  | leaf P D, p => if (leaf P D).IsInChunk p then some (leaf P D) else none
  | inner P D Childs, p =>
    if (inner P D Childs).IsInChunk p then GetLeaf (Childs ((inner P D Childs).octant p)) p
    else none

end ValueOctree

/-! ## Lemmas on the diagnostics bookkeeping -/

@[simp]
theorem AddThreadId_Mutex (Id : Nat) (s : FVoxelSharedMutex) :
    (AddThreadId Id s).Mutex = s.Mutex := by
  unfold AddThreadId ensure; split <;> rfl

@[simp]
theorem AddThreadId_ReadLocks (Id : Nat) (s : FVoxelSharedMutex) :
    (AddThreadId Id s).ReadLocks = s.ReadLocks := by
  unfold AddThreadId ensure; split <;> rfl

@[simp]
theorem AddThreadId_WriteLocks (Id : Nat) (s : FVoxelSharedMutex) :
    (AddThreadId Id s).WriteLocks = s.WriteLocks := by
  unfold AddThreadId ensure; split <;> rfl

@[simp]
theorem AddThreadId_ThreadIds (Id : Nat) (s : FVoxelSharedMutex) :
    (AddThreadId Id s).ThreadIds = insert Id s.ThreadIds := by
  unfold AddThreadId ensure; split <;> rfl

theorem AddThreadId_EnsureFailures (Id : Nat) (s : FVoxelSharedMutex) :
    (AddThreadId Id s).EnsureFailures =
      if Id ∈ s.ThreadIds then s.EnsureFailures + 1 else s.EnsureFailures := by
  unfold AddThreadId ensure
  by_cases h : Id ∈ s.ThreadIds <;> simp [h]

@[simp]
theorem RemoveThreadId_Mutex (Id : Nat) (s : FVoxelSharedMutex) :
    (RemoveThreadId Id s).Mutex = s.Mutex := by
  unfold RemoveThreadId ensure; split <;> rfl

@[simp]
theorem RemoveThreadId_ReadLocks (Id : Nat) (s : FVoxelSharedMutex) :
    (RemoveThreadId Id s).ReadLocks = s.ReadLocks := by
  unfold RemoveThreadId ensure; split <;> rfl

@[simp]
theorem RemoveThreadId_WriteLocks (Id : Nat) (s : FVoxelSharedMutex) :
    (RemoveThreadId Id s).WriteLocks = s.WriteLocks := by
  unfold RemoveThreadId ensure; split <;> rfl

@[simp]
theorem RemoveThreadId_ThreadIds (Id : Nat) (s : FVoxelSharedMutex) :
    (RemoveThreadId Id s).ThreadIds = s.ThreadIds.erase Id := by
  unfold RemoveThreadId ensure; split <;> rfl

theorem RemoveThreadId_EnsureFailures (Id : Nat) (s : FVoxelSharedMutex) :
    (RemoveThreadId Id s).EnsureFailures =
      if Id ∈ s.ThreadIds then s.EnsureFailures else s.EnsureFailures + 1 := by
  unfold RemoveThreadId ensure
  by_cases h : Id ∈ s.ThreadIds <;> simp [h]

/-- The `ensure` of `Unlock` fires exactly when the caller is not in `ThreadIds`. -/
theorem Unlock_EnsureFailures (K : EVoxelLockType) (Id : Nat) (s : FVoxelSharedMutex) :
    (Unlock K Id s).EnsureFailures =
      if Id ∈ s.ThreadIds then s.EnsureFailures else s.EnsureFailures + 1 := by
  cases K <;> simp [Unlock, RemoveThreadId_EnsureFailures]

@[simp]
theorem Unlock_ThreadIds (K : EVoxelLockType) (Id : Nat) (s : FVoxelSharedMutex) :
    (Unlock K Id s).ThreadIds = s.ThreadIds.erase Id := by
  cases K <;> simp [Unlock]

/-- A `Lock` that returns has the effect of a successful `TryLockImpl`. -/
theorem Lock_eq_some (K : EVoxelLockType) (Id : Nat) (s s1 : FVoxelSharedMutex)
    (h : Lock K Id s = some s1) :
    s1.ThreadIds = insert Id s.ThreadIds ∧
    s1.EnsureFailures = (if Id ∈ s.ThreadIds then s.EnsureFailures + 1 else s.EnsureFailures) ∧
    s1.ReadLocks = s.ReadLocks + (if K = .Read then 1 else 0) ∧
    s1.WriteLocks = s.WriteLocks + (if K = .ReadWrite then 1 else 0) := by
  cases K
  · simp only [Lock, SharedTimedMutex.lock_shared] at h
    split at h
    · simp at h
    · rename_i m hm
      cases h
      simp [AddThreadId_EnsureFailures]
  · simp only [Lock, SharedTimedMutex.lock] at h
    split at h
    · simp at h
    · rename_i m hm
      cases h
      simp [AddThreadId_EnsureFailures]

/-- The effect of `TryLockImpl` on the diagnostics fields. -/
theorem TryLockImpl_fields (K : EVoxelLockType) (Id : Nat) (s : FVoxelSharedMutex) :
    ((TryLockImpl K Id s).1 = false ∧ (TryLockImpl K Id s).2 = s) ∨
    ((TryLockImpl K Id s).1 = true ∧
      (TryLockImpl K Id s).2.ThreadIds = insert Id s.ThreadIds ∧
      (TryLockImpl K Id s).2.EnsureFailures =
        (if Id ∈ s.ThreadIds then s.EnsureFailures + 1 else s.EnsureFailures) ∧
      (TryLockImpl K Id s).2.ReadLocks = s.ReadLocks + (if K = .Read then 1 else 0) ∧
      (TryLockImpl K Id s).2.WriteLocks = s.WriteLocks + (if K = .ReadWrite then 1 else 0)) := by
  cases K
  · by_cases hx : s.Mutex.Exclusive = true
    · left; simp [TryLockImpl, SharedTimedMutex.try_lock_shared, hx]
    · right; simp [TryLockImpl, SharedTimedMutex.try_lock_shared, hx, AddThreadId_EnsureFailures]
  · by_cases hx : (s.Mutex.Exclusive || decide (0 < s.Mutex.Shared)) = true
    · left; simp [TryLockImpl, SharedTimedMutex.try_lock, hx]
    · right; simp [TryLockImpl, SharedTimedMutex.try_lock, hx, AddThreadId_EnsureFailures]

/-! ## Unlocking a kind that is not held -/

/-- Every thread recorded in `ThreadIds` holds some lock: the invariant kept
by every call. -/
theorem step_ThreadIds_held (c : Call) (s s1 : FVoxelSharedMutex)
    (h : List (Nat × EVoxelLockType)) (hs : step c s = some s1)
    (inv : ∀ Id ∈ s.ThreadIds, ∃ K, (Id, K) ∈ h) :
    ∀ Id ∈ s1.ThreadIds, ∃ K, (Id, K) ∈ heldStep c s h := by
  intro Id hId
  cases c with
  | Lock K T =>
    obtain ⟨hT, -⟩ := Lock_eq_some K T s s1 hs
    rw [hT, Finset.mem_insert] at hId
    rcases hId with rfl | hId
    · exact ⟨K, by simp [heldStep]⟩
    · obtain ⟨K1, h1⟩ := inv Id hId
      exact ⟨K1, by simp [heldStep, h1]⟩
  | Unlock K T =>
    simp only [step, Option.some.injEq] at hs
    subst hs
    rw [Unlock_ThreadIds, Finset.mem_erase] at hId
    obtain ⟨K1, h1⟩ := inv Id hId.2
    refine ⟨K1, ?_⟩
    simp only [heldStep]
    exact (List.mem_erase_of_ne (by simp [hId.1])).2 h1
  | TryLockImpl K T =>
    simp only [step, Option.some.injEq] at hs
    subst hs
    rcases TryLockImpl_fields K T s with ⟨h1, h2⟩ | ⟨h1, h2, -⟩
    · rw [h2] at hId
      obtain ⟨K1, h3⟩ := inv Id hId
      exact ⟨K1, by simp [heldStep, h1, h3]⟩
    · rw [h2, Finset.mem_insert] at hId
      rcases hId with rfl | hId
      · exact ⟨K, by simp [heldStep, h1]⟩
      · obtain ⟨K1, h3⟩ := inv Id hId
        exact ⟨K1, by simp [heldStep, h1, h3]⟩

/-- The invariant of `step_ThreadIds_held` along a sequence of calls. -/
theorem runHeld_ThreadIds_held (calls : List Call) :
    ∀ (s s1 : FVoxelSharedMutex) (h h1 : List (Nat × EVoxelLockType)),
      runHeld calls s h = some (s1, h1) →
      (∀ Id ∈ s.ThreadIds, ∃ K, (Id, K) ∈ h) →
      ∀ Id ∈ s1.ThreadIds, ∃ K, (Id, K) ∈ h1 := by
  induction calls with
  | nil =>
    intro s s1 h h1 hr inv
    simp only [runHeld, Option.some.injEq, Prod.mk.injEq] at hr
    obtain ⟨rfl, rfl⟩ := hr
    exact inv
  | cons c cs ih =>
    intro s s1 h h1 hr inv
    simp only [runHeld] at hr
    cases hc : step c s with
    | none => simp [hc] at hr
    | some s2 =>
      simp only [hc] at hr
      exact ih s2 s1 _ h1 hr (step_ThreadIds_held c s s2 h hc inv)

/-- Claim C1, as stated, fails. Thread 1 takes a `Read` lock on a fresh lock
and calls `Unlock<ReadWrite>`: it holds no `ReadWrite` lock, yet the `ensure`
of `RemoveThreadId` passes (the failure count stays 0) because `ThreadIds`
records the thread for the `Read` lock. The same happens when thread 1 takes a
`ReadWrite` lock and calls `Unlock<Read>`. -/
theorem unlock_kind_not_held_undetected :
    (runHeld [.Lock .Read 1] fresh [] =
        some ({ Mutex := { Shared := 1, Exclusive := false }, ReadLocks := 1,
                WriteLocks := 0, ThreadIds := {1}, EnsureFailures := 0 },
              [(1, .Read)]) ∧
      (1, EVoxelLockType.ReadWrite) ∉ [(1, EVoxelLockType.Read)] ∧
      (Unlock .ReadWrite 1
        { Mutex := { Shared := 1, Exclusive := false }, ReadLocks := 1,
          WriteLocks := 0, ThreadIds := {1}, EnsureFailures := 0 }).EnsureFailures = 0) ∧
    (runHeld [.Lock .ReadWrite 1] fresh [] =
        some ({ Mutex := { Shared := 0, Exclusive := true }, ReadLocks := 0,
                WriteLocks := 1, ThreadIds := {1}, EnsureFailures := 0 },
              [(1, .ReadWrite)]) ∧
      (1, EVoxelLockType.Read) ∉ [(1, EVoxelLockType.ReadWrite)] ∧
      (Unlock .Read 1
        { Mutex := { Shared := 0, Exclusive := true }, ReadLocks := 0,
          WriteLocks := 1, ThreadIds := {1}, EnsureFailures := 0 }).EnsureFailures = 0) := by
  decide

/-- Claim C1, amended: after any sequence of calls on a fresh lock, a thread
that holds no lock of either kind and calls `Unlock<K>`, for either kind `K`,
trips the `ensure` of `RemoveThreadId`. -/
theorem unlock_nothing_held_detected (calls : List Call) (s : FVoxelSharedMutex)
    (h : List (Nat × EVoxelLockType)) (Id : Nat) (K : EVoxelLockType)
    (hr : runHeld calls fresh [] = some (s, h)) (hno : ∀ K1, (Id, K1) ∉ h) :
    (Unlock K Id s).EnsureFailures = s.EnsureFailures + 1 := by
  have inv := runHeld_ThreadIds_held calls fresh s [] h hr (by simp [fresh])
  have hId : Id ∉ s.ThreadIds := by
    intro hmem
    obtain ⟨K1, h1⟩ := inv Id hmem
    exact hno K1 h1
  rw [Unlock_EnsureFailures, if_neg hId]

/-- Witness for `unlock_nothing_held_detected`: thread 2 locks and unlocks for
reading while thread 1 keeps a read lock; thread 2 then holds nothing, and its
`Unlock<ReadWrite>` raises the failure count from 0 to 1. -/
theorem unlock_nothing_held_detected_witness :
    runHeld [.Lock .Read 1, .Lock .Read 2, .Unlock .Read 2] fresh [] =
        some ({ Mutex := { Shared := 1, Exclusive := false }, ReadLocks := 1,
                WriteLocks := 0, ThreadIds := {1}, EnsureFailures := 0 },
              [(1, .Read)]) ∧
      (Unlock .ReadWrite 2
        { Mutex := { Shared := 1, Exclusive := false }, ReadLocks := 1,
          WriteLocks := 0, ThreadIds := {1}, EnsureFailures := 0 }).EnsureFailures = 0 + 1 :=
  ⟨by decide,
   unlock_nothing_held_detected [.Lock .Read 1, .Lock .Read 2, .Unlock .Read 2] _
     [(1, .Read)] 2 .ReadWrite (by decide) (by decide)⟩

/-! ## The bookkeeping invariant -/

/-- The effect of `Unlock` on the two counters. -/
theorem Unlock_counters (K : EVoxelLockType) (Id : Nat) (s : FVoxelSharedMutex) :
    (Unlock K Id s).ReadLocks = s.ReadLocks - (if K = .Read then 1 else 0) ∧
    (Unlock K Id s).WriteLocks = s.WriteLocks - (if K = .ReadWrite then 1 else 0) := by
  cases K <;> simp [Unlock]

/-- One call in which no `ensure` fires keeps `|ThreadIds| = ReadLocks + WriteLocks`;
and the failure count never decreases. -/
theorem step_card (c : Call) (s s1 : FVoxelSharedMutex) (hs : step c s = some s1)
    (h0 : s1.EnsureFailures = 0) :
    s.EnsureFailures = 0 ∧
    ((s.ThreadIds.card : Int) = s.ReadLocks + s.WriteLocks →
      (s1.ThreadIds.card : Int) = s1.ReadLocks + s1.WriteLocks) := by
  cases c with
  | Lock K T =>
    obtain ⟨hT, hE, hR, hW⟩ := Lock_eq_some K T s s1 hs
    by_cases hm : T ∈ s.ThreadIds
    · rw [if_pos hm] at hE; omega
    · rw [if_neg hm] at hE
      refine ⟨by omega, fun hc => ?_⟩
      rw [hT, hR, hW, Finset.card_insert_of_not_mem hm]
      cases K <;> simp <;> omega
  | Unlock K T =>
    simp only [step, Option.some.injEq] at hs
    subst hs
    have hE := Unlock_EnsureFailures K T s
    obtain ⟨hR, hW⟩ := Unlock_counters K T s
    by_cases hm : T ∈ s.ThreadIds
    · rw [if_pos hm] at hE
      refine ⟨by omega, fun hc => ?_⟩
      have hpos : 0 < s.ThreadIds.card := Finset.card_pos.2 ⟨T, hm⟩
      rw [Unlock_ThreadIds, hR, hW, Finset.card_erase_of_mem hm]
      cases K <;> simp <;> omega
    · rw [if_neg hm] at hE; omega
  | TryLockImpl K T =>
    simp only [step, Option.some.injEq] at hs
    subst hs
    rcases TryLockImpl_fields K T s with ⟨-, h2⟩ | ⟨-, hT, hE, hR, hW⟩
    · rw [h2] at h0 ⊢
      exact ⟨h0, fun hc => hc⟩
    · by_cases hm : T ∈ s.ThreadIds
      · rw [if_pos hm] at hE; omega
      · rw [if_neg hm] at hE
        refine ⟨by omega, fun hc => ?_⟩
        rw [hT, hR, hW, Finset.card_insert_of_not_mem hm]
        cases K <;> simp <;> omega

/-- The invariant of `step_card` along a sequence of calls. -/
theorem run_card (calls : List Call) :
    ∀ (s s1 : FVoxelSharedMutex), run calls s = some s1 → s1.EnsureFailures = 0 →
      s.EnsureFailures = 0 ∧
      ((s.ThreadIds.card : Int) = s.ReadLocks + s.WriteLocks →
        (s1.ThreadIds.card : Int) = s1.ReadLocks + s1.WriteLocks) := by
  induction calls with
  | nil =>
    intro s s1 hr h0
    simp only [run, Option.some.injEq] at hr
    subst hr
    exact ⟨h0, fun hc => hc⟩
  | cons c cs ih =>
    intro s s1 hr h0
    simp only [run] at hr
    cases hc : step c s with
    | none => simp [hc] at hr
    | some s2 =>
      simp only [hc] at hr
      obtain ⟨h2, himp⟩ := ih s2 s1 hr h0
      obtain ⟨h3, himp2⟩ := step_card c s s2 hc h2
      exact ⟨h3, fun hcard => himp (himp2 hcard)⟩

/-- The counters move by at most one per call, so on a fresh lock they stay
within the range of a 32-bit counter for any sequence of fewer than `2 ^ 31`
calls: the unbounded integers of the embedding then agree with
`FThreadSafeCounter`. -/
theorem run_counters_bounded (calls : List Call) :
    ∀ (s s1 : FVoxelSharedMutex) (b : Int), run calls s = some s1 →
      (-b ≤ s.ReadLocks ∧ s.ReadLocks ≤ b) → (-b ≤ s.WriteLocks ∧ s.WriteLocks ≤ b) →
      (-(b + calls.length) ≤ s1.ReadLocks ∧ s1.ReadLocks ≤ b + calls.length) ∧
      (-(b + calls.length) ≤ s1.WriteLocks ∧ s1.WriteLocks ≤ b + calls.length) := by
  induction calls with
  | nil =>
    intro s s1 b hr hR hW
    simp only [run, Option.some.injEq] at hr
    subst hr
    simpa using ⟨hR, hW⟩
  | cons c cs ih =>
    intro s s1 b hr hR hW
    simp only [run] at hr
    cases hc : step c s with
    | none => simp [hc] at hr
    | some s2 =>
      simp only [hc] at hr
      have hstep : (s.ReadLocks - 1 ≤ s2.ReadLocks ∧ s2.ReadLocks ≤ s.ReadLocks + 1) ∧
          (s.WriteLocks - 1 ≤ s2.WriteLocks ∧ s2.WriteLocks ≤ s.WriteLocks + 1) := by
        cases c with
        | Lock K T =>
          obtain ⟨-, -, h1, h2⟩ := Lock_eq_some K T s s2 hc
          cases K <;> simp at h1 h2 <;> omega
        | Unlock K T =>
          simp only [step, Option.some.injEq] at hc
          subst hc
          obtain ⟨h1, h2⟩ := Unlock_counters K T s
          cases K <;> simp at h1 h2 <;> omega
        | TryLockImpl K T =>
          simp only [step, Option.some.injEq] at hc
          subst hc
          rcases TryLockImpl_fields K T s with ⟨-, h2⟩ | ⟨-, -, -, h1, h2⟩
          · rw [h2]; omega
          · cases K <;> simp at h1 h2 <;> omega
      have := ih s2 s1 (b + 1) hr (by omega) (by omega)
      simp only [List.length_cons, Nat.cast_add, Nat.cast_one]
      omega

/-- Claim C10: starting from a fresh lock, after every sequence of `Lock`,
`TryLockImpl` (successful or not) and `Unlock` calls of either kind by any
threads in which no `ensure` has fired, the number of thread ids in `ThreadIds`
equals `ReadLocks + WriteLocks`; and from there a `Lock<K>` immediately
followed by `Unlock<K>` by the same thread, again with no `ensure` firing,
restores `ReadLocks`, `WriteLocks` and `ThreadIds` to their previous values. -/
theorem diagnostics_bookkeeping (calls : List Call) (s : FVoxelSharedMutex)
    (hr : run calls fresh = some s) (h0 : s.EnsureFailures = 0) :
    (s.ThreadIds.card : Int) = s.ReadLocks + s.WriteLocks ∧
    ∀ (K : EVoxelLockType) (Id : Nat) (s1 : FVoxelSharedMutex),
      Lock K Id s = some s1 → (Unlock K Id s1).EnsureFailures = 0 →
      (Unlock K Id s1).ReadLocks = s.ReadLocks ∧
      (Unlock K Id s1).WriteLocks = s.WriteLocks ∧
      (Unlock K Id s1).ThreadIds = s.ThreadIds := by
  refine ⟨(run_card calls fresh s hr h0).2 (by simp [fresh]), ?_⟩
  intro K Id s1 hL hU
  obtain ⟨hT, hE, hR, hW⟩ := Lock_eq_some K Id s s1 hL
  obtain ⟨hR2, hW2⟩ := Unlock_counters K Id s1
  have hE2 := Unlock_EnsureFailures K Id s1
  have hm : Id ∉ s.ThreadIds := by
    intro hm
    rw [if_pos hm] at hE
    have hin : Id ∈ s1.ThreadIds := by rw [hT]; exact Finset.mem_insert_self _ _
    rw [if_pos hin] at hE2
    omega
  refine ⟨by rw [hR2, hR]; omega, by rw [hW2, hW]; omega, ?_⟩
  rw [Unlock_ThreadIds, hT, Finset.erase_insert hm]

/-- Witness for `diagnostics_bookkeeping`: thread 1 holds a read lock, thread 2
tried for a write lock and failed; one thread id, `ReadLocks + WriteLocks = 1`.
Thread 2 then locks and unlocks for reading, which restores `ThreadIds`. -/
theorem diagnostics_bookkeeping_witness :
    run [.Lock .Read 1, .TryLockImpl .ReadWrite 2] fresh =
        some { Mutex := { Shared := 1, Exclusive := false }, ReadLocks := 1,
               WriteLocks := 0, ThreadIds := {1}, EnsureFailures := 0 } ∧
      ((({1} : Finset Nat).card : Int) = 1 + 0) ∧
      (Unlock .Read 2
        { Mutex := { Shared := 2, Exclusive := false }, ReadLocks := 2,
          WriteLocks := 0, ThreadIds := {2, 1}, EnsureFailures := 0 }).ThreadIds = {1} :=
  ⟨by decide,
   (diagnostics_bookkeeping [.Lock .Read 1, .TryLockImpl .ReadWrite 2]
     { Mutex := { Shared := 1, Exclusive := false }, ReadLocks := 1,
       WriteLocks := 0, ThreadIds := {1}, EnsureFailures := 0 } (by decide) rfl).1,
   ((diagnostics_bookkeeping [.Lock .Read 1, .TryLockImpl .ReadWrite 2]
     { Mutex := { Shared := 1, Exclusive := false }, ReadLocks := 1,
       WriteLocks := 0, ThreadIds := {1}, EnsureFailures := 0 } (by decide) rfl).2
     .Read 2
     { Mutex := { Shared := 2, Exclusive := false }, ReadLocks := 2,
       WriteLocks := 0, ThreadIds := {2, 1}, EnsureFailures := 0 }
     rfl (by decide)).2.2⟩

/-! ## The lock state machine -/

/-- One call keeps `Consistent`. -/
theorem step_Consistent (c : Call) (s s1 : FVoxelSharedMutex) (hs : step c s = some s1)
    (hu : ∀ K Id, c = .Unlock K Id → HeldKind K s.Mutex = true) (inv : Consistent s) :
    Consistent s1 := by
  obtain ⟨hx, hR, hW⟩ := inv
  cases c with
  | Lock K T =>
    cases K
    · simp only [step, Lock, SharedTimedMutex.lock_shared] at hs
      by_cases he : s.Mutex.Exclusive = true
      · simp [he] at hs
      · simp only [he] at hs
        simp only [Bool.false_eq_true, if_false, Option.some.injEq] at hs
        subst hs
        simp only [Bool.not_eq_true] at he
        simp [Consistent, he, hR, hW]
    · simp only [step, Lock, SharedTimedMutex.lock] at hs
      by_cases he : (s.Mutex.Exclusive || decide (0 < s.Mutex.Shared)) = true
      · simp [he] at hs
      · simp only [he] at hs
        simp only [Bool.false_eq_true, if_false, Option.some.injEq] at hs
        subst hs
        simp only [Bool.or_eq_true, decide_eq_true_eq, not_or, Bool.not_eq_true, not_lt,
          Nat.le_zero] at he
        simp [Consistent, he.1, he.2, hR, hW]
  | Unlock K T =>
    have hk := hu K T rfl
    simp only [step, Option.some.injEq] at hs
    subst hs
    cases K
    · simp only [HeldKind, decide_eq_true_eq] at hk
      have he : s.Mutex.Exclusive = false := by
        cases h : s.Mutex.Exclusive
        · rfl
        · have := hx h; omega
      simp only [Consistent, Unlock, SharedTimedMutex.unlock_shared, RemoveThreadId_Mutex,
        RemoveThreadId_ReadLocks, RemoveThreadId_WriteLocks, he, hR, hW]
      refine ⟨by simp, by omega, by simp⟩
    · simp only [HeldKind] at hk
      simp only [Consistent, Unlock, SharedTimedMutex.unlock, RemoveThreadId_Mutex,
        RemoveThreadId_ReadLocks, RemoveThreadId_WriteLocks, hR, hW, hk]
      simp
  | TryLockImpl K T =>
    simp only [step, Option.some.injEq] at hs
    subst hs
    cases K
    · by_cases he : s.Mutex.Exclusive = true
      · simpa [TryLockImpl, SharedTimedMutex.try_lock_shared, he, Consistent] using
          ⟨hx he, hR, by simpa [he] using hW⟩
      · simp only [Bool.not_eq_true] at he
        simp [TryLockImpl, SharedTimedMutex.try_lock_shared, he, Consistent, hR, hW]
    · by_cases he : (s.Mutex.Exclusive || decide (0 < s.Mutex.Shared)) = true
      · simpa [TryLockImpl, SharedTimedMutex.try_lock, he, Consistent] using ⟨hx, hR, hW⟩
      · have he2 := he
        simp only [Bool.or_eq_true, decide_eq_true_eq, not_or, Bool.not_eq_true, not_lt,
          Nat.le_zero] at he2
        simp [TryLockImpl, SharedTimedMutex.try_lock, he, Consistent, he2.1, he2.2, hR, hW]

/-- The invariant `Consistent` along a sequence of calls. -/
theorem run_Consistent (calls : List Call) :
    ∀ (s s1 : FVoxelSharedMutex), run calls s = some s1 → UnlocksHeld calls s = true →
      Consistent s → Consistent s1 := by
  induction calls with
  | nil =>
    intro s s1 hr _ inv
    simp only [run, Option.some.injEq] at hr
    subst hr
    exact inv
  | cons c cs ih =>
    intro s s1 hr hu inv
    simp only [run] at hr
    cases hc : step c s with
    | none => simp [hc] at hr
    | some s2 =>
      simp only [hc] at hr
      simp only [UnlocksHeld, hc, Bool.and_eq_true] at hu
      refine ih s2 s1 hr hu.2 (step_Consistent c s s2 hc ?_ inv)
      intro K Id hcK
      subst hcK
      exact hu.1

/-- Claim C7: in every state reachable from a fresh (unlocked) lock by `Lock`,
`TryLockImpl` and `Unlock` calls of either kind in which each `Unlock` releases
a lock of that kind currently held, there is never a shared holder together
with an exclusive holder, there is at most one exclusive holder (`WriteLocks`,
which counts them, is 0 or 1, and a further `ReadWrite` request is refused),
`ReadLocks > 0` and `WriteLocks > 0` are never both true, and a
`TryLockImpl<ReadWrite>` taken while `SharedHeld`, or a `TryLockImpl<Read>`
taken while `ExclusiveHeld`, returns false and leaves the state unchanged. -/
theorem lock_state_machine (calls : List Call) (s : FVoxelSharedMutex)
    (hr : run calls fresh = some s) (hu : UnlocksHeld calls fresh = true) :
    ¬ (0 < s.Mutex.Shared ∧ s.Mutex.Exclusive = true) ∧
    (s.ReadLocks = (s.Mutex.Shared : Int) ∧
      s.WriteLocks = (if s.Mutex.Exclusive then 1 else 0) ∧ s.WriteLocks ≤ 1) ∧
    (∀ Id, s.Mutex.Exclusive = true →
      Lock .ReadWrite Id s = none ∧ TryLockImpl .ReadWrite Id s = (false, s)) ∧
    ¬ (0 < s.ReadLocks ∧ 0 < s.WriteLocks) ∧
    (∀ Id, 0 < s.Mutex.Shared → TryLockImpl .ReadWrite Id s = (false, s)) ∧
    (∀ Id, s.Mutex.Exclusive = true → TryLockImpl .Read Id s = (false, s)) := by
  obtain ⟨hx, hR, hW⟩ := run_Consistent calls fresh s hr hu (by simp [Consistent, fresh])
  refine ⟨?_, ⟨hR, hW, ?_⟩, ?_, ?_, ?_, ?_⟩
  · rintro ⟨h1, h2⟩
    have := hx h2
    omega
  · rw [hW]; split <;> decide
  · intro Id he
    simp [Lock, TryLockImpl, SharedTimedMutex.lock, SharedTimedMutex.try_lock, he]
  · rintro ⟨h1, h2⟩
    rw [hW] at h2
    by_cases he : s.Mutex.Exclusive = true
    · have := hx he
      omega
    · simp [he] at h2
  · intro Id h1
    simp [TryLockImpl, SharedTimedMutex.try_lock, h1]
  · intro Id he
    simp [TryLockImpl, SharedTimedMutex.try_lock_shared, he]

/-- Witness for `lock_state_machine`: two readers, one of which leaves; the
state reached is `SharedHeld(1)`, where a write attempt by thread 3 fails. -/
theorem lock_state_machine_witness :
    run [.Lock .Read 1, .Lock .Read 2, .Unlock .Read 1] fresh =
        some { Mutex := { Shared := 1, Exclusive := false }, ReadLocks := 1,
               WriteLocks := 0, ThreadIds := {2}, EnsureFailures := 0 } ∧
      UnlocksHeld [.Lock .Read 1, .Lock .Read 2, .Unlock .Read 1] fresh = true ∧
      TryLockImpl .ReadWrite 3
          { Mutex := { Shared := 1, Exclusive := false }, ReadLocks := 1,
            WriteLocks := 0, ThreadIds := {2}, EnsureFailures := 0 } =
        (false, { Mutex := { Shared := 1, Exclusive := false }, ReadLocks := 1,
                  WriteLocks := 0, ThreadIds := {2}, EnsureFailures := 0 }) :=
  ⟨by decide, by decide,
   (lock_state_machine [.Lock .Read 1, .Lock .Read 2, .Unlock .Read 1]
     { Mutex := { Shared := 1, Exclusive := false }, ReadLocks := 1,
       WriteLocks := 0, ThreadIds := {2}, EnsureFailures := 0 }
     (by decide) (by decide)).2.2.2.2.1 3 (by decide)⟩

/-! ## Lemmas on the polling loop -/

/-- A failed `TryLockImpl` changes nothing. -/
theorem TryLockImpl_false (K : EVoxelLockType) (Id : Nat) (s : FVoxelSharedMutex)
    (h : (TryLockImpl K Id s).1 = false) : (TryLockImpl K Id s).2 = s := by
  rcases TryLockImpl_fields K Id s with ⟨-, h2⟩ | ⟨h1, -⟩
  · exact h2
  · rw [h] at h1; cases h1

/-- After a successful `TryLockImpl` the mutex is held in the requested way and
the caller is recorded. -/
theorem TryLockImpl_true (K : EVoxelLockType) (Id : Nat) (s : FVoxelSharedMutex)
    (h : (TryLockImpl K Id s).1 = true) :
    HeldKind K (TryLockImpl K Id s).2.Mutex = true ∧ Id ∈ (TryLockImpl K Id s).2.ThreadIds := by
  cases K
  · by_cases hx : s.Mutex.Exclusive = true
    · simp [TryLockImpl, SharedTimedMutex.try_lock_shared, hx] at h
    · simp [TryLockImpl, SharedTimedMutex.try_lock_shared, hx, HeldKind]
  · by_cases hx : (s.Mutex.Exclusive || decide (0 < s.Mutex.Shared)) = true
    · simp [TryLockImpl, SharedTimedMutex.try_lock, hx] at h
    · simp [TryLockImpl, SharedTimedMutex.try_lock, hx, HeldKind]

/-- After a `Lock` that returned the mutex is held in the requested way and the
caller is recorded. -/
theorem Lock_held (K : EVoxelLockType) (Id : Nat) (s s1 : FVoxelSharedMutex)
    (h : Lock K Id s = some s1) :
    HeldKind K s1.Mutex = true ∧ Id ∈ s1.ThreadIds := by
  cases K
  · by_cases hx : s.Mutex.Exclusive = true
    · simp [Lock, SharedTimedMutex.lock_shared, hx] at h
    · simp only [Lock, SharedTimedMutex.lock_shared, hx] at h
      simp only [Bool.false_eq_true, if_false, Option.some.injEq] at h
      subst h
      simp [HeldKind]
  · by_cases hx : (s.Mutex.Exclusive || decide (0 < s.Mutex.Shared)) = true
    · simp [Lock, SharedTimedMutex.lock, hx] at h
    · simp only [Lock, SharedTimedMutex.lock, hx] at h
      simp only [Bool.false_eq_true, if_false, Option.some.injEq] at h
      subst h
      simp [HeldKind]

/-- One iteration of the loop, case by case. -/
theorem retryLoop_succ (K : EVoxelLockType) (Id : Nat) (D I : ℚ) (env : Env)
    (left R c : Nat) (s : FVoxelSharedMutex) :
    retryLoop K Id D I env (left + 1) R c s =
      if D < env.Seconds c then
        { ret := false, state := s, trace := [.Seconds (env.Seconds c)] }
      else if (TryLockImpl K Id (env.Others R s)).1 = true then
        { ret := true, state := (TryLockImpl K Id (env.Others R s)).2,
          trace := [.Seconds (env.Seconds c), .TryLockImpl true] }
      else if D < env.Seconds (c + 1) then
        { ret := false, state := (TryLockImpl K Id (env.Others R s)).2,
          trace := [.Seconds (env.Seconds c), .TryLockImpl false,
            .Seconds (env.Seconds (c + 1))] }
      else
        { ret := (retryLoop K Id D I env left (R + 1) (c + 2)
            (TryLockImpl K Id (env.Others R s)).2).ret,
          state := (retryLoop K Id D I env left (R + 1) (c + 2)
            (TryLockImpl K Id (env.Others R s)).2).state,
          trace := .Seconds (env.Seconds c) :: .TryLockImpl false ::
            .Seconds (env.Seconds (c + 1)) :: .Sleep I ::
            (retryLoop K Id D I env left (R + 1) (c + 2)
              (TryLockImpl K Id (env.Others R s)).2).trace } := by
  simp only [retryLoop]

/-- The loop returns true exactly when one of its attempts succeeded, and it
never calls the blocking `Lock`. -/
theorem retryLoop_ret (K : EVoxelLockType) (Id : Nat) (D I : ℚ) (env : Env) (left : Nat) :
    ∀ (R c : Nat) (s : FVoxelSharedMutex),
      ((retryLoop K Id D I env left R c s).ret = true ↔
        Event.TryLockImpl true ∈ (retryLoop K Id D I env left R c s).trace) ∧
      Event.Lock ∉ (retryLoop K Id D I env left R c s).trace := by
  induction left with
  | zero => intro R c s; simp [retryLoop]
  | succ left ih =>
    intro R c s
    rw [retryLoop_succ]
    split_ifs with h1 h2 h3
    · simp
    · simp
    · simp
    · obtain ⟨ih1, ih2⟩ := ih (R + 1) (c + 2) (TryLockImpl K Id (env.Others R s)).2
      simp [ih1, ih2]

/-- When the loop returns true the caller holds the lock. -/
theorem retryLoop_acquired (K : EVoxelLockType) (Id : Nat) (D I : ℚ) (env : Env)
    (left : Nat) :
    ∀ (R c : Nat) (s : FVoxelSharedMutex),
      (retryLoop K Id D I env left R c s).ret = true →
      HeldKind K (retryLoop K Id D I env left R c s).state.Mutex = true ∧
        Id ∈ (retryLoop K Id D I env left R c s).state.ThreadIds := by
  induction left with
  | zero => intro R c s; simp [retryLoop]
  | succ left ih =>
    intro R c s
    rw [retryLoop_succ]
    split_ifs with h1 h2 h3
    · simp
    · intro _; exact TryLockImpl_true K Id _ h2
    · simp
    · exact ih (R + 1) (c + 2) _

/-- When the loop returns false the lock is as the other threads alone left
it. -/
theorem retryLoop_unchanged (K : EVoxelLockType) (Id : Nat) (D I : ℚ) (env : Env)
    (left : Nat) :
    ∀ (R c : Nat) (s : FVoxelSharedMutex),
      (retryLoop K Id D I env left R c s).ret = false →
      (retryLoop K Id D I env left R c s).state =
        othersOnly env R (attempts (retryLoop K Id D I env left R c s).trace) s := by
  induction left with
  | zero => intro R c s; simp [retryLoop, attempts, othersOnly]
  | succ left ih =>
    intro R c s
    rw [retryLoop_succ]
    split_ifs with h1 h2 h3
    · simp [attempts, othersOnly]
    · simp
    · intro _
      simp only [Bool.not_eq_true] at h2
      simp [attempts, othersOnly, TryLockImpl_false K Id _ h2]
    · intro hr
      simp only [Bool.not_eq_true] at h2
      have := ih (R + 1) (c + 2) (TryLockImpl K Id (env.Others R s)).2 hr
      simp only [attempts, othersOnly]
      rw [this, TryLockImpl_false K Id _ h2]

/-- Without other threads the turns change nothing. -/
theorem othersOnly_id (env : Env) (hid : ∀ n x, env.Others n x = x) (n : Nat) :
    ∀ (first : Nat) (s : FVoxelSharedMutex), othersOnly env first n s = s := by
  induction n with
  | zero => intro first s; rfl
  | succ n ih => intro first s; simp [othersOnly, hid, ih]

/-- Every sleep of the loop lasts `Interval`. -/
theorem retryLoop_sleep (K : EVoxelLockType) (Id : Nat) (D I : ℚ) (env : Env) (left : Nat) :
    ∀ (R c : Nat) (s : FVoxelSharedMutex) (d : ℚ),
      Event.Sleep d ∈ (retryLoop K Id D I env left R c s).trace → d = I := by
  induction left with
  | zero => intro R c s d; simp [retryLoop]
  | succ left ih =>
    intro R c s d
    rw [retryLoop_succ]
    split_ifs with h1 h2 h3
    · simp
    · simp
    · simp
    · intro hm
      simp only [List.mem_cons, Event.Sleep.injEq, reduceCtorEq, false_or] at hm
      rcases hm with hm | hm
      · exact hm
      · exact ih (R + 1) (c + 2) _ d hm

/-- The loop makes at most `left` attempts. -/
theorem retryLoop_attempts_le (K : EVoxelLockType) (Id : Nat) (D I : ℚ) (env : Env)
    (left : Nat) :
    ∀ (R c : Nat) (s : FVoxelSharedMutex),
      attempts (retryLoop K Id D I env left R c s).trace ≤ left := by
  induction left with
  | zero => intro R c s; simp [retryLoop, attempts]
  | succ left ih =>
    intro R c s
    rw [retryLoop_succ]
    split_ifs with h1 h2 h3
    · simp [attempts]
    · simp [attempts]
    · simp [attempts]
    · have := ih (R + 1) (c + 2) (TryLockImpl K Id (env.Others R s)).2
      simp only [attempts]
      omega

/-- The loop makes all `left` attempts when no reading passes the deadline and
no attempt succeeds. -/
theorem retryLoop_attempts_eq (K : EVoxelLockType) (Id : Nat) (D I : ℚ) (env : Env)
    (left : Nat) :
    ∀ (R c : Nat) (s : FVoxelSharedMutex),
      (∀ t, Event.Seconds t ∈ (retryLoop K Id D I env left R c s).trace → t ≤ D) →
      Event.TryLockImpl true ∉ (retryLoop K Id D I env left R c s).trace →
      attempts (retryLoop K Id D I env left R c s).trace = left := by
  induction left with
  | zero => intro R c s; simp [retryLoop, attempts]
  | succ left ih =>
    intro R c s
    rw [retryLoop_succ]
    split_ifs with h1 h2 h3
    · intro ht _
      exact absurd (ht _ (by simp)) (not_le.2 h1)
    · intro _ hf
      exact absurd (by simp) hf
    · intro ht _
      exact absurd (ht _ (by simp)) (not_le.2 h3)
    · intro ht hf
      have := ih (R + 1) (c + 2) (TryLockImpl K Id (env.Others R s)).2
        (fun t hm => ht t (by simp [hm])) (fun hm => hf (by simp [hm]))
      simp only [attempts]
      omega

/-- In the loop every sleep comes right after a failed attempt and a clock
reading that is not past the deadline. -/
theorem retryLoop_sleep_guard (K : EVoxelLockType) (Id : Nat) (D I : ℚ) (env : Env)
    (left : Nat) :
    ∀ (R c : Nat) (s : FVoxelSharedMutex) (pre post : List Event) (d : ℚ),
      (retryLoop K Id D I env left R c s).trace = pre ++ Event.Sleep d :: post →
      ∃ pre1 t, pre = pre1 ++ [Event.TryLockImpl false, Event.Seconds t] ∧ t ≤ D := by
  induction left with
  | zero =>
    intro R c s pre post d h
    simp [retryLoop] at h
  | succ left ih =>
    intro R c s pre post d
    rw [retryLoop_succ]
    split_ifs with h1 h2 h3
    · intro h
      rcases pre with _ | ⟨a, pre⟩ <;> simp at h
    · intro h
      rcases pre with _ | ⟨a, _ | ⟨b, pre⟩⟩ <;> simp at h
    · intro h
      rcases pre with _ | ⟨a, _ | ⟨b, _ | ⟨e, pre⟩⟩⟩ <;> simp at h
    · intro h
      rcases pre with _ | ⟨a, _ | ⟨b, _ | ⟨e, _ | ⟨f, pre⟩⟩⟩⟩
      · simp at h
      · simp at h
      · simp at h
      · simp only [List.cons_append, List.nil_append, List.cons.injEq] at h
        obtain ⟨ha, hb, he, -⟩ := h
        exact ⟨[a], env.Seconds (c + 1), by simp [← hb, ← he], not_lt.1 h3⟩
      · simp only [List.cons_append, List.cons.injEq] at h
        obtain ⟨ha, hb, he, hf, hrest⟩ := h
        obtain ⟨pre1, t, hp, ht⟩ := ih (R + 1) (c + 2) _ pre post d hrest
        exact ⟨a :: b :: e :: f :: pre1, t, by simp [hp], ht⟩

/-- In the loop a clock reading past the deadline is the last event, and the
loop returns false. -/
theorem retryLoop_late_reading (K : EVoxelLockType) (Id : Nat) (D I : ℚ) (env : Env)
    (left : Nat) :
    ∀ (R c : Nat) (s : FVoxelSharedMutex) (pre post : List Event) (t : ℚ),
      (retryLoop K Id D I env left R c s).trace = pre ++ Event.Seconds t :: post →
      D < t → post = [] ∧ (retryLoop K Id D I env left R c s).ret = false := by
  induction left with
  | zero =>
    intro R c s pre post t h
    simp [retryLoop] at h
  | succ left ih =>
    intro R c s pre post t
    rw [retryLoop_succ]
    split_ifs with h1 h2 h3
    · intro h _
      rcases pre with _ | ⟨a, pre⟩
      · simp at h; simp [h.2]
      · simp at h
    · intro h ht
      rcases pre with _ | ⟨a, _ | ⟨b, pre⟩⟩
      · simp only [List.nil_append, List.cons.injEq, Event.Seconds.injEq] at h
        rw [h.1] at h1; exact absurd ht h1
      · simp at h
      · simp at h
    · intro h ht
      rcases pre with _ | ⟨a, _ | ⟨b, _ | ⟨e, pre⟩⟩⟩
      · simp only [List.nil_append, List.cons.injEq, Event.Seconds.injEq] at h
        rw [h.1] at h1; exact absurd ht h1
      · simp at h
      · simp at h; simp [h.2.2.2]
      · simp at h
    · intro h ht
      rcases pre with _ | ⟨a, _ | ⟨b, _ | ⟨e, _ | ⟨f, pre⟩⟩⟩⟩
      · simp only [List.nil_append, List.cons.injEq, Event.Seconds.injEq] at h
        rw [h.1] at h1; exact absurd ht h1
      · simp at h
      · simp only [List.cons_append, List.nil_append, List.cons.injEq,
          Event.Seconds.injEq] at h
        rw [h.2.2.1] at h3; exact absurd ht h3
      · simp at h
      · simp only [List.cons_append, List.cons.injEq] at h
        exact ih (R + 1) (c + 2) _ pre post t h.2.2.2.2 ht

/-- In the clock model of `ExactClock`, with every attempt failing and room for
`left` sleeps before the deadline, the loop sleeps `left` times and returns
false. -/
theorem retryLoop_exact (K : EVoxelLockType) (Id : Nat) (D I : ℚ) (env : Env)
    (hI : 0 ≤ I) (left : Nat) :
    ∀ (R c : Nat) (s : FVoxelSharedMutex) (now : ℚ),
      ExactClock now (retryLoop K Id D I env left R c s).trace →
      Event.TryLockImpl true ∉ (retryLoop K Id D I env left R c s).trace →
      now + left * I ≤ D →
      (retryLoop K Id D I env left R c s).ret = false ∧
        clockAfter now (retryLoop K Id D I env left R c s).trace = now + left * I := by
  induction left with
  | zero => intro R c s now; simp [retryLoop, clockAfter]
  | succ left ih =>
    intro R c s now
    rw [retryLoop_succ]
    have hnn : (0 : ℚ) ≤ (left : ℚ) * I := mul_nonneg (Nat.cast_nonneg left) hI
    split_ifs with h1 h2 h3
    · intro hc _ hroom
      simp only [ExactClock] at hc
      rw [hc.1] at h1
      push_cast at hroom
      nlinarith
    · intro _ hf
      exact absurd (by simp) hf
    · intro hc _ hroom
      simp only [ExactClock] at hc
      rw [hc.2.1] at h3
      push_cast at hroom
      nlinarith
    · intro hc hf hroom
      simp only [ExactClock] at hc
      push_cast at hroom
      have := ih (R + 1) (c + 2) (TryLockImpl K Id (env.Others R s)).2 (now + I) hc.2.2
        (fun hm => hf (by simp [hm])) (by linarith)
      simp only [clockAfter]
      refine ⟨this.1, ?_⟩
      rw [this.2]
      push_cast
      ring

/-! ## Lemmas on the retry interval and the retry count -/

/-- Below 32 ms the interval is a 32nd of the time left and 32 retries are
allowed. -/
theorem retry_short (T : ℚ) (h0 : 0 < T) (h1 : T < 32 / 1000) :
    TimeBetweenRetry T = T / 32 ∧ NumberOfRetry T = 32 := by
  have hI : TimeBetweenRetry T = T / 32 := by
    unfold TimeBetweenRetry
    exact min_eq_right (by linarith)
  refine ⟨hI, ?_⟩
  unfold NumberOfRetry
  rw [hI]
  have hq : T / (T / 32) = ((32 : ℤ) : ℚ) := by
    field_simp
  rw [hq, Int.floor_intCast]
  rfl

/-- From 32 ms on the interval is 1 ms and `floor(1000 * TimeLeft)` retries are
allowed. -/
theorem retry_long (T : ℚ) (h1 : 32 / 1000 ≤ T) :
    TimeBetweenRetry T = 1 / 1000 ∧ NumberOfRetry T = ⌊1000 * T⌋ := by
  have hI : TimeBetweenRetry T = 1 / 1000 := by
    unfold TimeBetweenRetry
    exact min_eq_left (by linarith)
  refine ⟨hI, ?_⟩
  unfold NumberOfRetry
  rw [hI]
  have hq : T / (1 / 1000) = 1000 * T := by
    field_simp
    ring
  rw [hq]
  apply max_eq_right
  apply Int.le_floor.2
  push_cast
  linarith

/-- For a positive time left the interval is positive and at most 1 ms, and
the allowed sleeps end within one interval before the deadline. -/
theorem retry_fits (T : ℚ) (h0 : 0 < T) :
    0 < TimeBetweenRetry T ∧ TimeBetweenRetry T ≤ 1 / 1000 ∧
    (1 : ℤ) ≤ NumberOfRetry T ∧
    ((NumberOfRetry T).toNat : ℚ) * TimeBetweenRetry T ≤ T ∧
    T < (((NumberOfRetry T).toNat : ℚ) + 1) * TimeBetweenRetry T := by
  have hI0 : 0 < TimeBetweenRetry T := by
    unfold TimeBetweenRetry
    exact lt_min (by norm_num) (by linarith)
  have hI1 : TimeBetweenRetry T ≤ 1 / 1000 := by
    unfold TimeBetweenRetry
    exact min_le_left _ _
  have hI2 : TimeBetweenRetry T ≤ T / 32 := by
    unfold TimeBetweenRetry
    exact min_le_right _ _
  have h32 : (32 : ℚ) ≤ T / TimeBetweenRetry T := by
    rw [le_div_iff₀ hI0]
    linarith
  have hfl : (1 : ℤ) ≤ ⌊T / TimeBetweenRetry T⌋ := by
    apply Int.le_floor.2
    push_cast
    linarith
  have hN : NumberOfRetry T = ⌊T / TimeBetweenRetry T⌋ := by
    unfold NumberOfRetry
    exact max_eq_right hfl
  have hN1 : (1 : ℤ) ≤ NumberOfRetry T := by rw [hN]; exact hfl
  have hcast : (((NumberOfRetry T).toNat : ℤ) : ℚ) = ((NumberOfRetry T : ℤ) : ℚ) := by
    rw [Int.toNat_of_nonneg (by omega)]
  have hcast2 : ((NumberOfRetry T).toNat : ℚ) = ((NumberOfRetry T : ℤ) : ℚ) := by
    rw [← hcast]; norm_cast
  refine ⟨hI0, hI1, hN1, ?_, ?_⟩
  · rw [hcast2, hN]
    have := Int.floor_le (T / TimeBetweenRetry T)
    calc ((⌊T / TimeBetweenRetry T⌋ : ℤ) : ℚ) * TimeBetweenRetry T
        ≤ T / TimeBetweenRetry T * TimeBetweenRetry T :=
          mul_le_mul_of_nonneg_right this hI0.le
      _ = T := by field_simp
  · rw [hcast2, hN]
    have := Int.lt_floor_add_one (T / TimeBetweenRetry T)
    calc T = T / TimeBetweenRetry T * TimeBetweenRetry T := by field_simp
      _ < (((⌊T / TimeBetweenRetry T⌋ : ℤ) : ℚ) + 1) * TimeBetweenRetry T :=
          mul_lt_mul_of_pos_right this hI0

/-- On the polling path the retry count fits `int32`. -/
theorem NumberOfRetry_fits (T : ℚ) (hT : T ≤ 3600) :
    1 ≤ NumberOfRetry T ∧ NumberOfRetry T ≤ 3600000 := by
  refine ⟨le_max_left _ _, ?_⟩
  rcases lt_trichotomy T 0 with hneg | rfl | hpos
  · have hI : TimeBetweenRetry T = T / 32 := by
      unfold TimeBetweenRetry
      exact min_eq_right (by linarith)
    have hT0 : T ≠ 0 := ne_of_lt hneg
    have hq : T / (T / 32) = ((32 : ℤ) : ℚ) := by
      field_simp
    unfold NumberOfRetry
    rw [hI, hq, Int.floor_intCast]
    decide
  · unfold NumberOfRetry
    simp
  · by_cases h32 : T < 32 / 1000
    · rw [(retry_short T hpos h32).2]; decide
    · rw [(retry_long T (not_lt.1 h32)).2]
      have : ⌊1000 * T⌋ ≤ ⌊((3600000 : ℤ) : ℚ)⌋ := Int.floor_mono (by push_cast; linarith)
      rwa [Int.floor_intCast] at this

/-- The polling path of `TryLockUntil`. -/
theorem TryLockUntil_polling (K : EVoxelLockType) (Id : Nat) (D : ℚ) (env : Env)
    (s : FVoxelSharedMutex) (hT : ¬ D - env.Seconds 0 > 3600) :
    TryLockUntil K Id D env s =
      some { ret := (retryLoop K Id D (TimeBetweenRetry (D - env.Seconds 0)) env
                (NumberOfRetry (D - env.Seconds 0)).toNat 0 1 s).ret,
             state := (retryLoop K Id D (TimeBetweenRetry (D - env.Seconds 0)) env
                (NumberOfRetry (D - env.Seconds 0)).toNat 0 1 s).state,
             trace := .Seconds (env.Seconds 0) ::
               (retryLoop K Id D (TimeBetweenRetry (D - env.Seconds 0)) env
                (NumberOfRetry (D - env.Seconds 0)).toNat 0 1 s).trace } := by
  simp only [TryLockUntil, hT, if_false]

/-- The long-deadline path of `TryLockUntil`. -/
theorem TryLockUntil_blocking (K : EVoxelLockType) (Id : Nat) (D : ℚ) (env : Env)
    (s : FVoxelSharedMutex) (hT : D - env.Seconds 0 > 3600) :
    TryLockUntil K Id D env s =
      (Lock K Id (env.Others 0 s)).map
        (fun s1 => { ret := true, state := s1, trace := [.Seconds (env.Seconds 0), .Lock] }) := by
  simp only [TryLockUntil, hT, if_true]
  cases Lock K Id (env.Others 0 s) <;> rfl

/-- A run of `TryLockUntil<ReadWrite>` by thread 2 on a write-locked lock, 10 ms
before the deadline, with a clock that jumps past the deadline during the first
sleep: one failed attempt, one sleep of 1/3200 s, then the timeout. -/
theorem TryLockUntil_timeout_example :
    TryLockUntil .ReadWrite 2 (1 / 100) (quietEnv (fun n => if n ≤ 2 then 0 else 1))
        writeLocked =
      some { ret := false, state := writeLocked,
             trace := [.Seconds 0, .Seconds 0, .TryLockImpl false, .Seconds 0,
                       .Sleep (1 / 3200), .Seconds 1] } := by
  have h := retry_short (1 / 100 - (quietEnv (fun n => if n ≤ 2 then 0 else 1)).Seconds 0)
    (by norm_num [quietEnv]) (by norm_num [quietEnv])
  rw [TryLockUntil_polling _ _ _ _ _ (by norm_num [quietEnv]), h.1, h.2]
  rw [show (32 : ℤ).toNat = 30 + 1 + 1 from rfl, retryLoop_succ, retryLoop_succ]
  norm_num [quietEnv, writeLocked, TryLockImpl, SharedTimedMutex.try_lock]

/-- The call returns on the polling path, and on the long-deadline path when
the blocking `Lock` returns. -/
theorem TryLockUntil_returns (K : EVoxelLockType) (Id : Nat) (D : ℚ) (env : Env)
    (s : FVoxelSharedMutex)
    (hcase : D - env.Seconds 0 ≤ 3600 ∨ ∃ s1, Lock K Id (env.Others 0 s) = some s1) :
    ∃ r, TryLockUntil K Id D env s = some r := by
  by_cases hT : D - env.Seconds 0 > 3600
  · rcases hcase with hle | ⟨s1, hs1⟩
    · exact absurd hT (not_lt.2 hle)
    · exact ⟨_, by rw [TryLockUntil_blocking K Id D env s hT, hs1]; rfl⟩
  · exact ⟨_, TryLockUntil_polling K Id D env s hT⟩

/-! ## Properties of `TryLockUntil` -/

/-- Claim C2: for either lock kind and every deadline, `TryLockUntil` returns
(on the polling path always, on the long-deadline path when the blocking `Lock`
does), and it returns true exactly when the call acquired the lock (a
`TryLockImpl` attempt succeeded, or the blocking `Lock` of the long-deadline
path ran), in which case the caller holds the lock afterwards; when it returns
false the lock is as the other threads alone left it, so that without other
threads the whole state (mutex, `ReadLocks`, `WriteLocks`, `ThreadIds`) is the
same as before the call. -/
theorem TryLockUntil_result (K : EVoxelLockType) (Id : Nat) (D : ℚ) (env : Env)
    (s : FVoxelSharedMutex) :
    ((D - env.Seconds 0 ≤ 3600 ∨ ∃ s1, Lock K Id (env.Others 0 s) = some s1) →
      ∃ r, TryLockUntil K Id D env s = some r) ∧
    ∀ r, TryLockUntil K Id D env s = some r →
      (r.ret = true ↔ (Event.TryLockImpl true ∈ r.trace ∨ Event.Lock ∈ r.trace)) ∧
      (r.ret = true → HeldKind K r.state.Mutex = true ∧ Id ∈ r.state.ThreadIds) ∧
      (r.ret = false → r.state = othersOnly env 0 (attempts r.trace) s) ∧
      (r.ret = false → (∀ n x, env.Others n x = x) → r.state = s) := by
  refine ⟨TryLockUntil_returns K Id D env s, ?_⟩
  intro r h
  by_cases hT : D - env.Seconds 0 > 3600
  · rw [TryLockUntil_blocking K Id D env s hT] at h
    cases hL : Lock K Id (env.Others 0 s) with
    | none => simp [hL] at h
    | some s1 =>
      simp only [hL, Option.map_some', Option.some.injEq] at h
      subst h
      refine ⟨by simp, fun _ => Lock_held K Id _ s1 hL, by simp, by simp⟩
  · rw [TryLockUntil_polling K Id D env s hT, Option.some.injEq] at h
    subst h
    obtain ⟨h1, h2⟩ := retryLoop_ret K Id D (TimeBetweenRetry (D - env.Seconds 0)) env
      (NumberOfRetry (D - env.Seconds 0)).toNat 0 1 s
    have h3 := retryLoop_unchanged K Id D (TimeBetweenRetry (D - env.Seconds 0)) env
      (NumberOfRetry (D - env.Seconds 0)).toNat 0 1 s
    refine ⟨?_, retryLoop_acquired K Id D _ env _ 0 1 s, ?_, ?_⟩
    · simp [h1, h2]
    · intro hf
      simpa [attempts] using h3 hf
    · intro hf hid
      have := h3 hf
      simp only [] at this ⊢
      rw [this, othersOnly_id env hid]

/-- Witness for `TryLockUntil_result`: the timeout run of
`TryLockUntil_timeout_example` returns false, made one attempt, and leaves the
lock as it was. -/
theorem TryLockUntil_result_witness :
    TryLockUntil .ReadWrite 2 (1 / 100) (quietEnv (fun n => if n ≤ 2 then 0 else 1))
        writeLocked =
      some { ret := false, state := writeLocked,
             trace := [.Seconds 0, .Seconds 0, .TryLockImpl false, .Seconds 0,
                       .Sleep (1 / 3200), .Seconds 1] } ∧
      (false = true ↔
        (Event.TryLockImpl true ∈ [Event.Seconds 0, Event.Seconds 0,
            Event.TryLockImpl false, Event.Seconds 0, Event.Sleep (1 / 3200),
            Event.Seconds 1] ∨
          Event.Lock ∈ [Event.Seconds 0, Event.Seconds 0, Event.TryLockImpl false,
            Event.Seconds 0, Event.Sleep (1 / 3200), Event.Seconds 1])) :=
  ⟨TryLockUntil_timeout_example,
   ((TryLockUntil_result .ReadWrite 2 (1 / 100) (quietEnv (fun n => if n ≤ 2 then 0 else 1))
     writeLocked).2 _ TryLockUntil_timeout_example).1⟩

/-- A `Lock` on an unlocked mutex returns. -/
theorem Lock_unlocked (K : EVoxelLockType) (Id : Nat) (s : FVoxelSharedMutex)
    (h : s.Mutex = { Shared := 0, Exclusive := false }) : ∃ s1, Lock K Id s = some s1 := by
  cases K <;> simp [Lock, SharedTimedMutex.lock_shared, SharedTimedMutex.lock, h]

/-- Claim C3: for either lock kind, whenever the remaining time at entry
(deadline minus the first clock reading) is greater than 3600 seconds,
`TryLockUntil` performs the plain blocking `Lock` of that kind and returns true
when that returns; its only events are the clock reading at entry and the
`Lock`: no try-lock attempt, no further clock reading, no `Sleep`. On an
unlocked resource the `Lock` returns, so the call succeeds without any polling
iteration. -/
theorem TryLockUntil_long_deadline (K : EVoxelLockType) (Id : Nat) (D : ℚ) (env : Env)
    (s : FVoxelSharedMutex) (hT : D - env.Seconds 0 > 3600) :
    TryLockUntil K Id D env s =
      (Lock K Id (env.Others 0 s)).map
        (fun s1 => { ret := true, state := s1, trace := [.Seconds (env.Seconds 0), .Lock] }) ∧
    ((env.Others 0 s).Mutex = { Shared := 0, Exclusive := false } →
      ∃ s1, Lock K Id (env.Others 0 s) = some s1 ∧
        TryLockUntil K Id D env s =
          some { ret := true, state := s1, trace := [.Seconds (env.Seconds 0), .Lock] }) := by
  refine ⟨TryLockUntil_blocking K Id D env s hT, fun hm => ?_⟩
  obtain ⟨s1, hs1⟩ := Lock_unlocked K Id _ hm
  exact ⟨s1, hs1, by rw [TryLockUntil_blocking K Id D env s hT, hs1]; rfl⟩

/-- Witness for `TryLockUntil_long_deadline`: a deadline 4000 s away on a fresh
lock; the call is the clock reading and the blocking `Lock<ReadWrite>`, after
which thread 1 holds the lock. -/
theorem TryLockUntil_long_deadline_witness :
    (4000 : ℚ) - (quietEnv (fun _ => 0)).Seconds 0 > 3600 ∧
      TryLockUntil .ReadWrite 1 4000 (quietEnv (fun _ => 0)) fresh =
        some { ret := true,
               state := { Mutex := { Shared := 0, Exclusive := true }, ReadLocks := 0,
                          WriteLocks := 1, ThreadIds := {1}, EnsureFailures := 0 },
               trace := [.Seconds 0, .Lock] } :=
  ⟨by norm_num [quietEnv],
   (TryLockUntil_long_deadline .ReadWrite 1 4000 (quietEnv (fun _ => 0)) fresh
     (by norm_num [quietEnv])).1.trans rfl⟩

/-- Claim C9: for either lock kind, if the deadline has already passed at
entry (the first clock reading is strictly greater than the deadline) and the
clock is monotone, `TryLockUntil` returns false after one more clock reading,
without making any try-lock attempt and without sleeping, and leaves the lock
untouched, whatever its state (unlocked included). -/
theorem TryLockUntil_deadline_passed (K : EVoxelLockType) (Id : Nat) (D : ℚ) (env : Env)
    (s : FVoxelSharedMutex) (hpast : D < env.Seconds 0) (hmono : Monotone env.Seconds) :
    TryLockUntil K Id D env s =
      some { ret := false, state := s,
             trace := [.Seconds (env.Seconds 0), .Seconds (env.Seconds 1)] } := by
  have hT : ¬ D - env.Seconds 0 > 3600 := by
    intro h; linarith
  have h1 : D < env.Seconds 1 := lt_of_lt_of_le hpast (hmono (Nat.zero_le 1))
  have hN : (1 : ℤ) ≤ NumberOfRetry (D - env.Seconds 0) := le_max_left _ _
  obtain ⟨k, hk⟩ : ∃ k, (NumberOfRetry (D - env.Seconds 0)).toNat = k + 1 :=
    ⟨(NumberOfRetry (D - env.Seconds 0)).toNat - 1, by omega⟩
  rw [TryLockUntil_polling K Id D env s hT, hk, retryLoop_succ, if_pos h1]

/-- Witness for `TryLockUntil_deadline_passed`: deadline 5, constant clock 10,
fresh (unlocked) lock. -/
theorem TryLockUntil_deadline_passed_witness :
    (5 : ℚ) < (quietEnv (fun _ => 10)).Seconds 0 ∧ Monotone (quietEnv (fun _ => 10)).Seconds ∧
      TryLockUntil .ReadWrite 1 5 (quietEnv (fun _ => 10)) fresh =
        some { ret := false, state := fresh,
               trace := [.Seconds ((quietEnv (fun _ => 10)).Seconds 0),
                         .Seconds ((quietEnv (fun _ => 10)).Seconds 1)] } :=
  ⟨by norm_num [quietEnv], monotone_const,
   TryLockUntil_deadline_passed .ReadWrite 1 5 (quietEnv (fun _ => 10)) fresh
     (by norm_num [quietEnv]) monotone_const⟩

/-- Claim C4: in every execution of `TryLockUntil` (any clock readings, any
outcomes of the attempts), each `Sleep` is immediately preceded by a clock
reading that is not greater than the deadline, itself immediately preceded by
the failed attempt of the same iteration; and a clock reading in the loop (any
reading but the one at entry) that is greater than the deadline is the last
event of the call, which returns false. The call returns on the polling path,
and on the long-deadline path when the blocking `Lock` does. -/
theorem TryLockUntil_sleep_before_deadline (K : EVoxelLockType) (Id : Nat) (D : ℚ)
    (env : Env) (s : FVoxelSharedMutex) :
    ((D - env.Seconds 0 ≤ 3600 ∨ ∃ s1, Lock K Id (env.Others 0 s) = some s1) →
      ∃ r, TryLockUntil K Id D env s = some r) ∧
    ∀ r, TryLockUntil K Id D env s = some r →
      (∀ (pre post : List Event) (d : ℚ), r.trace = pre ++ Event.Sleep d :: post →
        ∃ pre1 t, pre = pre1 ++ [Event.TryLockImpl false, Event.Seconds t] ∧ t ≤ D) ∧
      (∀ (pre post : List Event) (t : ℚ), pre ≠ [] →
        r.trace = pre ++ Event.Seconds t :: post → D < t → post = [] ∧ r.ret = false) := by
  refine ⟨TryLockUntil_returns K Id D env s, ?_⟩
  intro r h
  by_cases hT : D - env.Seconds 0 > 3600
  · rw [TryLockUntil_blocking K Id D env s hT] at h
    cases hL : Lock K Id (env.Others 0 s) with
    | none => simp [hL] at h
    | some s1 =>
      simp only [hL, Option.map_some', Option.some.injEq] at h
      subst h
      constructor
      · intro pre post d hp
        rcases pre with _ | ⟨a, _ | ⟨b, pre⟩⟩ <;> simp at hp
      · intro pre post t hne hp
        rcases pre with _ | ⟨a, _ | ⟨b, pre⟩⟩
        · exact absurd rfl hne
        · simp at hp
        · simp at hp
  · rw [TryLockUntil_polling K Id D env s hT, Option.some.injEq] at h
    subst h
    constructor
    · intro pre post d hp
      rcases pre with _ | ⟨a, pre⟩
      · simp at hp
      · simp only [List.cons_append, List.cons.injEq] at hp
        obtain ⟨pre1, t, hpre, ht⟩ := retryLoop_sleep_guard K Id D _ env _ 0 1 s pre post d hp.2
        exact ⟨a :: pre1, t, by simp [hpre], ht⟩
    · intro pre post t hne hp ht
      rcases pre with _ | ⟨a, pre⟩
      · exact absurd rfl hne
      · simp only [List.cons_append, List.cons.injEq] at hp
        exact retryLoop_late_reading K Id D _ env _ 0 1 s pre post t hp.2 ht

/-- Witness for `TryLockUntil_sleep_before_deadline`: in the timeout run of
`TryLockUntil_timeout_example` the one sleep follows a failed attempt and a
reading of 0, before the deadline 1/100. -/
theorem TryLockUntil_sleep_before_deadline_witness :
    TryLockUntil .ReadWrite 2 (1 / 100) (quietEnv (fun n => if n ≤ 2 then 0 else 1))
        writeLocked =
      some { ret := false, state := writeLocked,
             trace := [.Seconds 0, .Seconds 0, .TryLockImpl false, .Seconds 0,
                       .Sleep (1 / 3200), .Seconds 1] } ∧
      ∃ pre1 t, [Event.Seconds 0, Event.Seconds 0, Event.TryLockImpl false, Event.Seconds 0] =
        pre1 ++ [Event.TryLockImpl false, Event.Seconds t] ∧ t ≤ 1 / 100 :=
  ⟨TryLockUntil_timeout_example,
   ((TryLockUntil_sleep_before_deadline .ReadWrite 2 (1 / 100)
     (quietEnv (fun n => if n ≤ 2 then 0 else 1)) writeLocked).2 _
     TryLockUntil_timeout_example).1
     [.Seconds 0, .Seconds 0, .TryLockImpl false, .Seconds 0] [.Seconds 1] (1 / 3200) rfl⟩

/-- Claim C6: with `T` the remaining time at entry to `TryLockUntil`, every
sleep between attempts lasts `min(0.001, T/32)` seconds, the number of try-lock
attempts is at most `max(1, floor(T / interval))`, and, on the polling path,
exactly that many attempts are made when no clock reading passes the deadline
and no attempt succeeds (the call returns on the polling path, and on the
long-deadline path when the blocking `Lock` does). In exact arithmetic, for `0 < T < 0.032` the interval
is `T/32` with 32 attempts, and for `0.032 <= T <= 3600` it is 1 ms with
`floor(1000 * T)` attempts. -/
theorem TryLockUntil_interval_and_retries (K : EVoxelLockType) (Id : Nat) (D : ℚ)
    (env : Env) (s : FVoxelSharedMutex) :
    ((D - env.Seconds 0 ≤ 3600 ∨ ∃ s1, Lock K Id (env.Others 0 s) = some s1) →
      ∃ r, TryLockUntil K Id D env s = some r) ∧
    (∀ r, TryLockUntil K Id D env s = some r →
      (∀ d, Event.Sleep d ∈ r.trace →
        d = min (1 / 1000) ((D - env.Seconds 0) / 32)) ∧
      ((attempts r.trace : ℤ) ≤
        max 1 ⌊(D - env.Seconds 0) / min (1 / 1000) ((D - env.Seconds 0) / 32)⌋) ∧
      (D - env.Seconds 0 ≤ 3600 → (∀ t, Event.Seconds t ∈ r.trace → t ≤ D) →
        Event.TryLockImpl true ∉ r.trace →
        (attempts r.trace : ℤ) =
          max 1 ⌊(D - env.Seconds 0) / min (1 / 1000) ((D - env.Seconds 0) / 32)⌋)) ∧
    (0 < D - env.Seconds 0 → D - env.Seconds 0 < 32 / 1000 →
      min (1 / 1000) ((D - env.Seconds 0) / 32) = (D - env.Seconds 0) / 32 ∧
      max 1 ⌊(D - env.Seconds 0) / min (1 / 1000) ((D - env.Seconds 0) / 32)⌋ = 32) ∧
    (32 / 1000 ≤ D - env.Seconds 0 → D - env.Seconds 0 ≤ 3600 →
      min (1 / 1000) ((D - env.Seconds 0) / 32) = 1 / 1000 ∧
      max 1 ⌊(D - env.Seconds 0) / min (1 / 1000) ((D - env.Seconds 0) / 32)⌋ =
        ⌊1000 * (D - env.Seconds 0)⌋) := by
  have hN : (1 : ℤ) ≤ NumberOfRetry (D - env.Seconds 0) := le_max_left _ _
  have hcast : (((NumberOfRetry (D - env.Seconds 0)).toNat : ℕ) : ℤ) =
      NumberOfRetry (D - env.Seconds 0) := Int.toNat_of_nonneg (by omega)
  refine ⟨TryLockUntil_returns K Id D env s, fun r h => ⟨?_, ?_, ?_⟩,
    fun h0 h1 => retry_short _ h0 h1, fun h1 _ => retry_long _ h1⟩
  · intro d hd
    by_cases hT : D - env.Seconds 0 > 3600
    · rw [TryLockUntil_blocking K Id D env s hT] at h
      cases hL : Lock K Id (env.Others 0 s) with
      | none => simp [hL] at h
      | some s1 =>
        simp only [hL, Option.map_some', Option.some.injEq] at h
        subst h
        simp at hd
    · rw [TryLockUntil_polling K Id D env s hT, Option.some.injEq] at h
      subst h
      simp only [List.mem_cons, reduceCtorEq, false_or] at hd
      exact retryLoop_sleep K Id D _ env _ 0 1 s d hd
  · by_cases hT : D - env.Seconds 0 > 3600
    · rw [TryLockUntil_blocking K Id D env s hT] at h
      cases hL : Lock K Id (env.Others 0 s) with
      | none => simp [hL] at h
      | some s1 =>
        simp only [hL, Option.map_some', Option.some.injEq] at h
        subst h
        simp only [attempts, Nat.cast_zero]
        exact le_trans (by norm_num) (le_max_left _ _)
    · rw [TryLockUntil_polling K Id D env s hT, Option.some.injEq] at h
      subst h
      have := retryLoop_attempts_le K Id D (TimeBetweenRetry (D - env.Seconds 0)) env
        (NumberOfRetry (D - env.Seconds 0)).toNat 0 1 s
      simp only [attempts]
      change _ ≤ NumberOfRetry (D - env.Seconds 0)
      omega
  · intro hle ht hf
    have hT : ¬ D - env.Seconds 0 > 3600 := not_lt.2 hle
    rw [TryLockUntil_polling K Id D env s hT, Option.some.injEq] at h
    subst h
    have := retryLoop_attempts_eq K Id D (TimeBetweenRetry (D - env.Seconds 0)) env
      (NumberOfRetry (D - env.Seconds 0)).toNat 0 1 s
      (fun t hm => ht t (by simp [hm])) (fun hm => hf (by simp [hm]))
    simp only [attempts]
    change _ = NumberOfRetry (D - env.Seconds 0)
    omega

/-- Witness for `TryLockUntil_interval_and_retries`: in the timeout run of
`TryLockUntil_timeout_example` 10 ms remain, and the sleep lasts
`min(1/1000, (1/100)/32)`. -/
theorem TryLockUntil_interval_and_retries_witness :
    TryLockUntil .ReadWrite 2 (1 / 100) (quietEnv (fun n => if n ≤ 2 then 0 else 1))
        writeLocked =
      some { ret := false, state := writeLocked,
             trace := [.Seconds 0, .Seconds 0, .TryLockImpl false, .Seconds 0,
                       .Sleep (1 / 3200), .Seconds 1] } ∧
      (1 / 3200 : ℚ) = min (1 / 1000)
        ((1 / 100 - (quietEnv (fun n => if n ≤ 2 then 0 else 1)).Seconds 0) / 32) :=
  ⟨TryLockUntil_timeout_example,
   ((TryLockUntil_interval_and_retries .ReadWrite 2 (1 / 100)
     (quietEnv (fun n => if n ≤ 2 then 0 else 1)) writeLocked).2.1 _
     TryLockUntil_timeout_example).1 (1 / 3200) (by simp)⟩

/-- With the readings of `sleepClock` and sleeps of length `d` the events of the
loop fit the clock model of `ExactClock`. -/
theorem retryLoop_sleepClock (K : EVoxelLockType) (Id : Nat) (D t0 d : ℚ) (left : Nat) :
    ∀ (R : Nat) (s : FVoxelSharedMutex),
      ExactClock (t0 + R * d)
        (retryLoop K Id D d (quietEnv (sleepClock t0 d)) left R (2 * R + 1) s).trace := by
  induction left with
  | zero => intro R s; simp [retryLoop, ExactClock]
  | succ left ih =>
    intro R s
    have e1 : (quietEnv (sleepClock t0 d)).Seconds (2 * R + 1) = t0 + R * d := by
      simp [quietEnv, sleepClock]
    have e2 : (quietEnv (sleepClock t0 d)).Seconds (2 * R + 1 + 1) = t0 + R * d := by
      have : (2 * R + 1 + 1 - 1) / 2 = R := by omega
      simp only [quietEnv, sleepClock]
      rw [this]
    rw [retryLoop_succ]
    split_ifs with h1 h2 h3
    · simp [ExactClock, e1]
    · simp [ExactClock, e1]
    · simp [ExactClock, e1, e2]
    · have := ih (R + 1) (TryLockImpl K Id ((quietEnv (sleepClock t0 d)).Others R s)).2
      have e3 : 2 * (R + 1) + 1 = 2 * R + 1 + 2 := by ring
      have e4 : t0 + ((R + 1 : ℕ) : ℚ) * d = t0 + R * d + d := by push_cast; ring
      rw [e3, e4] at this
      simp only [ExactClock, e1, e2, true_and]
      exact this

/-- While one thread holds the lock for writing and no other thread acts, no
attempt of the loop succeeds. -/
theorem retryLoop_writeLocked (K : EVoxelLockType) (Id : Nat) (D I : ℚ) (clock : Nat → ℚ)
    (left : Nat) :
    ∀ (R c : Nat) (s : FVoxelSharedMutex), s.Mutex.Exclusive = true →
      Event.TryLockImpl true ∉ (retryLoop K Id D I (quietEnv clock) left R c s).trace := by
  induction left with
  | zero => intro R c s _; simp [retryLoop]
  | succ left ih =>
    intro R c s hx
    have hf : TryLockImpl K Id ((quietEnv clock).Others R s) = (false, s) := by
      cases K <;>
        simp [quietEnv, TryLockImpl, SharedTimedMutex.try_lock,
          SharedTimedMutex.try_lock_shared, hx]
    rw [retryLoop_succ]
    split_ifs with h1 h2 h3
    · simp
    · rw [hf] at h2; cases h2
    · simp
    · have := ih (R + 1) (c + 2) (TryLockImpl K Id ((quietEnv clock).Others R s)).2
        (by rw [hf]; exact hx)
      simpa using this

/-- Claim C5: for every remaining time `T` with `0 < T <= 3600` (the deadline
minus the clock reading at entry), `TryLockUntil` returns; and when every
try-lock attempt fails and time advances only during `Sleep`, by exactly the
requested interval, it returns false at a time `t` with
`deadline - interval < t <= deadline + interval` (indeed `t <= deadline`),
where `interval = min(1 ms, T/32) <= 1 ms`. For `T = 50 ms` the return time is
exactly the deadline. -/
theorem TryLockUntil_deadline_respected (K : EVoxelLockType) (Id : Nat) (D : ℚ)
    (env : Env) (s : FVoxelSharedMutex)
    (hpos : 0 < D - env.Seconds 0) (hle : D - env.Seconds 0 ≤ 3600) :
    ∃ r, TryLockUntil K Id D env s = some r ∧
      (ExactClock (env.Seconds 0) r.trace → Event.TryLockImpl true ∉ r.trace →
        r.ret = false ∧
        D - min (1 / 1000) ((D - env.Seconds 0) / 32) < clockAfter (env.Seconds 0) r.trace ∧
        clockAfter (env.Seconds 0) r.trace ≤ D + min (1 / 1000) ((D - env.Seconds 0) / 32) ∧
        clockAfter (env.Seconds 0) r.trace ≤ D ∧
        min (1 / 1000) ((D - env.Seconds 0) / 32) ≤ 1 / 1000 ∧
        (D - env.Seconds 0 = 50 / 1000 → clockAfter (env.Seconds 0) r.trace = D)) := by
  have hT : ¬ D - env.Seconds 0 > 3600 := not_lt.2 hle
  refine ⟨_, TryLockUntil_polling K Id D env s hT, ?_⟩
  intro hclock hfail
  obtain ⟨hI0, hI1, hN1, hfit, hnext⟩ := retry_fits (D - env.Seconds 0) hpos
  have hI : TimeBetweenRetry (D - env.Seconds 0) =
      min (1 / 1000) ((D - env.Seconds 0) / 32) := rfl
  obtain ⟨hret, hend⟩ := retryLoop_exact K Id D (TimeBetweenRetry (D - env.Seconds 0)) env
    hI0.le (NumberOfRetry (D - env.Seconds 0)).toNat 0 1 s (env.Seconds 0) hclock.2
    (fun hm => hfail (by simp [hm])) (by linarith)
  have hclk : clockAfter (env.Seconds 0) (Event.Seconds (env.Seconds 0) ::
      (retryLoop K Id D (TimeBetweenRetry (D - env.Seconds 0)) env
        (NumberOfRetry (D - env.Seconds 0)).toNat 0 1 s).trace) =
      env.Seconds 0 + ((NumberOfRetry (D - env.Seconds 0)).toNat : ℚ) *
        TimeBetweenRetry (D - env.Seconds 0) := by
    simp only [clockAfter]
    exact hend
  simp only []
  rw [hclk, ← hI]
  refine ⟨hret, by linarith, by linarith, by linarith, hI1, ?_⟩
  intro h50
  obtain ⟨hi, hn⟩ := retry_long (D - env.Seconds 0) (by rw [h50]; norm_num)
  have hfl : ⌊1000 * (D - env.Seconds 0)⌋ = 50 := by
    rw [h50]
    have : (1000 : ℚ) * (50 / 1000) = ((50 : ℤ) : ℚ) := by norm_num
    rw [this, Int.floor_intCast]
  rw [hn, hfl, hi]
  have h50n : (50 : ℤ).toNat = 50 := rfl
  rw [h50n]
  push_cast
  linarith

/-- Witness for `TryLockUntil_deadline_respected`: thread 2 asks for a write
lock 50 ms before the deadline while thread 1 keeps its write lock, the clock
advancing by the millisecond of each sleep; the call returns false exactly at
the deadline. -/
theorem TryLockUntil_deadline_respected_witness :
    (0 : ℚ) < 50 / 1000 - (quietEnv (sleepClock 0 (1 / 1000))).Seconds 0 ∧
      (50 / 1000 : ℚ) - (quietEnv (sleepClock 0 (1 / 1000))).Seconds 0 ≤ 3600 ∧
      ∃ r, TryLockUntil .ReadWrite 2 (50 / 1000) (quietEnv (sleepClock 0 (1 / 1000)))
            writeLocked = some r ∧
        ExactClock 0 r.trace ∧ Event.TryLockImpl true ∉ r.trace ∧
        r.ret = false ∧ clockAfter 0 r.trace = 50 / 1000 := by
  have h0 : (quietEnv (sleepClock 0 (1 / 1000))).Seconds 0 = 0 := by
    simp [quietEnv, sleepClock]
  have hpos : (0 : ℚ) < 50 / 1000 - (quietEnv (sleepClock 0 (1 / 1000))).Seconds 0 := by
    rw [h0]; norm_num
  have hle : (50 / 1000 : ℚ) - (quietEnv (sleepClock 0 (1 / 1000))).Seconds 0 ≤ 3600 := by
    rw [h0]; norm_num
  obtain ⟨r, hr, hw⟩ := TryLockUntil_deadline_respected .ReadWrite 2 (50 / 1000)
    (quietEnv (sleepClock 0 (1 / 1000))) writeLocked hpos hle
  have hI : TimeBetweenRetry
      ((50 / 1000 : ℚ) - (quietEnv (sleepClock 0 (1 / 1000))).Seconds 0) = 1 / 1000 :=
    (retry_long _ (by rw [h0]; norm_num)).1
  rw [TryLockUntil_polling _ _ _ _ _ (not_lt.2 hle), Option.some.injEq] at hr
  have hc : ExactClock 0 r.trace := by
    rw [← hr, hI]
    refine ⟨h0, ?_⟩
    simpa using retryLoop_sleepClock .ReadWrite 2 (50 / 1000) 0 (1 / 1000)
      (NumberOfRetry ((50 / 1000 : ℚ) -
        (quietEnv (sleepClock 0 (1 / 1000))).Seconds 0)).toNat 0 writeLocked
  have hf : Event.TryLockImpl true ∉ r.trace := by
    rw [← hr]
    simpa using retryLoop_writeLocked .ReadWrite 2 (50 / 1000) _ (sleepClock 0 (1 / 1000))
      _ 0 1 writeLocked rfl
  rw [h0] at hw
  have hw2 := hw hc hf
  exact ⟨hpos, hle, r, by rw [TryLockUntil_polling _ _ _ _ _ (not_lt.2 hle), hr], hc, hf,
    hw2.1, hw2.2.2.2.2.2 (by norm_num)⟩

/-! ## Octant selection in the octree -/

namespace ValueOctree

/-- Membership in the chunk of a leaf of depth `k + 1`, in terms of `2 ^ k`. -/
theorem IsInChunk_parent (P C : FIntVector) (k : Nat) :
    (leaf P (k + 1)).IsInChunk C = true ↔
      (-(2 * 2 ^ k) ≤ C.X - P.X ∧ C.X - P.X < 2 * 2 ^ k) ∧
      (-(2 * 2 ^ k) ≤ C.Y - P.Y ∧ C.Y - P.Y < 2 * 2 ^ k) ∧
      (-(2 * 2 ^ k) ≤ C.Z - P.Z ∧ C.Z - P.Z < 2 * 2 ^ k) := by
  have hw : (leaf P (k + 1)).GetWidth / 2 = 2 * 2 ^ k := by
    have : (leaf P (k + 1)).GetWidth = 2 * 2 ^ k * 2 := by
      simp only [GetWidth, Depth]; ring
    rw [this, Int.mul_ediv_cancel _ (by norm_num)]
  simp only [IsInChunk, hw, Position, Bool.and_eq_true, decide_eq_true_eq, and_assoc]

/-- Membership in the chunk of a leaf of depth `k`, in terms of `2 ^ k`. -/
theorem IsInChunk_child (Q C : FIntVector) (k : Nat) :
    (leaf Q k).IsInChunk C = true ↔
      (-(2 ^ k) ≤ C.X - Q.X ∧ C.X - Q.X < 2 ^ k) ∧
      (-(2 ^ k) ≤ C.Y - Q.Y ∧ C.Y - Q.Y < 2 ^ k) ∧
      (-(2 ^ k) ≤ C.Z - Q.Z ∧ C.Z - Q.Z < 2 ^ k) := by
  have hw : (leaf Q k).GetWidth / 2 = 2 ^ k := by
    have : (leaf Q k).GetWidth = 2 ^ k * 2 := by
      simp only [GetWidth, Depth]; ring
    rw [this, Int.mul_ediv_cancel _ (by norm_num)]
  simp only [IsInChunk, hw, Position, Bool.and_eq_true, decide_eq_true_eq, and_assoc]

/-- Centre of child `i` of a leaf of depth `k + 1`, in terms of `2 ^ k`. -/
theorem childPosition_eq (P : FIntVector) (k : Nat) (i : Fin 8) :
    (leaf P (k + 1)).childPosition i =
      { X := P.X + (if i.val % 2 = 1 then 2 ^ k else -(2 ^ k))
        Y := P.Y + (if i.val / 2 % 2 = 1 then 2 ^ k else -(2 ^ k))
        Z := P.Z + (if i.val / 4 % 2 = 1 then 2 ^ k else -(2 ^ k)) } := by
  have hw : (leaf P (k + 1)).GetWidth / 4 = 2 ^ k := by
    have : (leaf P (k + 1)).GetWidth = 2 ^ k * 4 := by
      simp only [GetWidth, Depth]; ring
    rw [this, Int.mul_ediv_cancel _ (by norm_num)]
  simp only [childPosition, hw, Position]

/-- The child of index `octant C` contains `C`, and it is the only one. -/
theorem child_contains_iff (P C : FIntVector) (k : Nat)
    (hC : (leaf P (k + 1)).IsInChunk C = true) (i : Fin 8) :
    (leaf ((leaf P (k + 1)).childPosition i) k).IsInChunk C = true ↔
      i = (leaf P (k + 1)).octant C := by
  rw [IsInChunk_parent] at hC
  rw [IsInChunk_child, childPosition_eq]
  have hq : (0 : Int) < 2 ^ k := by positivity
  generalize (2 : Int) ^ k = q at hC hq ⊢
  obtain ⟨v, hv⟩ := i
  simp only [octant, Position, Fin.mk.injEq]
  split_ifs <;> omega

/-- Claim C8 (octant round-trip): for every node of depth at least 1 that is
still a leaf and every coordinate `C` in its chunk, `CreateChilds` gives the
node eight children, child `i` centred at the parent centre offset by
`Width/4` per axis in the direction given by the bits of `i` (x lowest, then y,
then z) and half as wide as the parent; `GetLeaf` for `C` then descends into the
child of index `octant C`, that child contains `C`, and no other child does. -/
theorem octant_round_trip (P : FIntVector) (D : Nat) (C : FIntVector)
    (hD : 1 ≤ D) (hC : (leaf P D).IsInChunk C = true) :
    ∃ Childs, CreateChilds (leaf P D) = some (inner P D Childs) ∧
      (∀ i : Fin 8,
        (Childs i).Position =
          { X := P.X + (if i.val % 2 = 1 then (leaf P D).GetWidth / 4
                        else -((leaf P D).GetWidth / 4))
            Y := P.Y + (if i.val / 2 % 2 = 1 then (leaf P D).GetWidth / 4
                        else -((leaf P D).GetWidth / 4))
            Z := P.Z + (if i.val / 4 % 2 = 1 then (leaf P D).GetWidth / 4
                        else -((leaf P D).GetWidth / 4)) } ∧
        (Childs i).GetWidth = (leaf P D).GetWidth / 2) ∧
      GetLeaf (inner P D Childs) C = some (Childs ((inner P D Childs).octant C)) ∧
      (Childs ((inner P D Childs).octant C)).IsInChunk C = true ∧
      ∀ i, (Childs i).IsInChunk C = true → i = (inner P D Childs).octant C := by
  obtain ⟨k, rfl⟩ : ∃ k, D = k + 1 := ⟨D - 1, by omega⟩
  have hsel : ∀ Childs : Fin 8 → ValueOctree,
      (inner P (k + 1) Childs).octant C = (leaf P (k + 1)).octant C := fun _ => rfl
  have hin : ∀ Childs : Fin 8 → ValueOctree,
      (inner P (k + 1) Childs).IsInChunk C = (leaf P (k + 1)).IsInChunk C := fun _ => rfl
  have hchild := (child_contains_iff P C k hC ((leaf P (k + 1)).octant C)).2 rfl
  refine ⟨fun i => leaf ((leaf P (k + 1)).childPosition i) k, ?_, ?_, ?_, ?_, ?_⟩
  · simp [CreateChilds]
  · intro i
    refine ⟨rfl, ?_⟩
    have h1 : (leaf ((leaf P (k + 1)).childPosition i) k).GetWidth = 2 ^ k * 2 := by
      simp only [GetWidth, Depth]; ring
    have h2 : (leaf P (k + 1)).GetWidth = 2 ^ k * 2 * 2 := by
      simp only [GetWidth, Depth]; ring
    rw [h1, h2, Int.mul_ediv_cancel _ (by norm_num)]
  · simp only [GetLeaf, hin, hC, if_true, hsel, hchild]
  · rw [hsel]; exact hchild
  · intro i hi
    rw [hsel]
    exact (child_contains_iff P C k hC i).1 hi

/-- Witness for `octant_round_trip`: the node of depth 1 centred at the origin
(width 4) and the coordinate `(1, -2, 0)`, which lies in child 5 (x and z at or
above the centre, y below), centred at `(1, -1, 1)`. -/
theorem octant_round_trip_witness :
    (leaf ⟨0, 0, 0⟩ 1).IsInChunk ⟨1, -2, 0⟩ = true ∧
      (inner ⟨0, 0, 0⟩ 1 (fun i => leaf ((leaf ⟨0, 0, 0⟩ 1).childPosition i) 0)).octant
        ⟨1, -2, 0⟩ = 5 ∧
      (leaf ⟨0, 0, 0⟩ 1).childPosition 5 = ⟨1, -1, 1⟩ ∧
      ∃ Childs, CreateChilds (leaf ⟨0, 0, 0⟩ 1) = some (inner ⟨0, 0, 0⟩ 1 Childs) ∧
        GetLeaf (inner ⟨0, 0, 0⟩ 1 Childs) ⟨1, -2, 0⟩ =
          some (Childs ((inner ⟨0, 0, 0⟩ 1 Childs).octant ⟨1, -2, 0⟩)) := by
  refine ⟨by decide, by decide, by decide, ?_⟩
  obtain ⟨Childs, h1, -, h3, -⟩ :=
    octant_round_trip ⟨0, 0, 0⟩ 1 ⟨1, -2, 0⟩ (by decide) (by decide)
  exact ⟨Childs, h1, h3⟩

end ValueOctree

end VoxelPlugin
